import Mathlib

/-!
Shallow embedding of the account / two-factor authentication core of the
repository (file `src/src/auth/AuthProvider.tsx`).

Modelling conventions:
* JavaScript numbers holding millisecond timestamps are embedded as `Int`
  (all values appearing in the code are exact integers well below 2^53);
  `Math.floor(x / 30000)` on such values is `Int.fdiv`.
* The djb2-xor hash works on 32-bit integers; it is embedded as `Nat`
  arithmetic with explicit `% 2^32`.  For the strings the code hashes
  (ASCII secrets, a colon and decimal digits) `charCodeAt` agrees with
  `Char.toNat`.
* `string | undefined` fields become `Option String`; JavaScript truthiness
  of such a field (`undefined` and `""` are falsy) is `jsTruthy`.
* Randomly generated values (ids, codes, secrets) and the clock are passed
  to each operation as explicit arguments, and the result of the awaited
  e-mail collaborator call is an `Except String Unit` argument.
* Each stateful operation returns `Except AuthError α × AuthState`,
  threading the component state in the order the source applies its
  `setState` effects, so a thrown error carries exactly the state that has
  been built up to the throw point.
-/

namespace AuthCore

/-- Challenge TTL: `CHALLENGE_EXPIRY_MS = 5 * 60 * 1000`. -/
def CHALLENGE_EXPIRY_MS : Int := 5 * 60 * 1000

/-- Verification-code TTL: `VERIFICATION_EXPIRY_MS = 15 * 60 * 1000`. -/
def VERIFICATION_EXPIRY_MS : Int := 15 * 60 * 1000

/-- Whitespace trim of both ends, the effect of `String.prototype.trim`;
written on the character list so that it reduces in the kernel. -/
def jsTrim (s : String) : String :=
  String.mk (((s.data.dropWhile Char.isWhitespace).reverse.dropWhile
    Char.isWhitespace).reverse)

/-- ASCII-faithful `toLowerCase`, written on the character list. -/
def lowerAscii (s : String) : String := String.mk (s.data.map Char.toLower)

/-- ASCII-faithful `toUpperCase`, written on the character list. -/
def upperAscii (s : String) : String := String.mk (s.data.map Char.toUpper)

/-- JavaScript truthiness of a `string | undefined` value: `undefined`
and the empty string are falsy, every other string truthy. -/
def jsTruthy : Option String → Bool
  | none => false
  | some s => !(s == "")

/-- Embeds `email.trim().toLowerCase()` (`normalizeEmail`). -/
def normalizeEmail (email : String) : String := lowerAscii (jsTrim email)

/-- Embeds `code.replace(/\s+/g, '')`: every whitespace character is
removed.  The `\s` class is modelled by `Char.isWhitespace`. -/
def stripSpaces (s : String) : String :=
  String.mk (s.data.filter (fun c => !c.isWhitespace))

/-- Embeds `code.replace(/\s+/g, '').toUpperCase()` (`normalizeCode`). -/
def normalizeCode (code : String) : String := upperAscii (stripSpaces code)

/-- Replaces each maximal whitespace run by a single space, the effect of
`name.replace(/\s+/g, ' ')`. -/
def collapseWs : List Char → List Char
  | [] => []
  | c :: rest =>
    let tail := collapseWs rest
    if c.isWhitespace then
      match tail with
      | ' ' :: _ => tail
      | _ => ' ' :: tail
    else c :: tail

/-- Embeds `normalizeName`: collapse whitespace, trim, and fall back to
the placeholder display name when the result is empty. -/
def normalizeName (name : String) : String :=
  let trimmed := jsTrim (String.mk (collapseWs name.data))
  if trimmed == "" then "Користувач" else trimmed

/-- One step of `hashString`: `hash = ((hash << 5) + hash) ^ charCode`
on 32-bit integers.  On the unsigned 32-bit bit pattern this is
multiplication by 33 modulo 2^32 followed by xor with the code unit. -/
def hashStep (h : Nat) (c : Char) : Nat :=
  ((h * 33) % 4294967296) ^^^ c.toNat

/-- Embeds `hashString` (djb2 xor variant with a final `>>> 0`). -/
def hashString (value : String) : Nat :=
  value.data.foldl hashStep 5381

/-- Decimal digit character for `d < 10`. -/
def digitChar (d : Nat) : Char := Char.ofNat (48 + d)

/-- Embeds `n.toString().padStart(6, '0')` for `n < 1000000`: the six
decimal digits of `n`, zero padded. -/
def toSixDigitCode (n : Nat) : String :=
  String.mk [digitChar (n / 100000 % 10), digitChar (n / 10000 % 10),
    digitChar (n / 1000 % 10), digitChar (n / 100 % 10),
    digitChar (n / 10 % 10), digitChar (n % 10)]

/-- Embeds `generateTwoFactorCode`: the 30000 ms window index feeds the
hash of `secret ++ ":" ++ window` and the hash is reduced to six digits. -/
def generateTwoFactorCode (secret : String) (timestamp : Int) : String :=
  let window : Int := Int.fdiv timestamp 30000
  let hash := hashString (secret ++ ":" ++ toString window)
  toSixDigitCode (hash % 1000000)

/-- The `^\d{6}$` test of `verifyTwoFactorCode`. -/
def isSixDigitCode (s : String) : Bool :=
  s.length == 6 && s.data.all Char.isDigit

/-- Embeds `verifyTwoFactorCode`: strip whitespace, require six digits,
and accept the code of the current window or of either adjacent window. -/
def verifyTwoFactorCode (secret : String) (code : String) (now : Int) : Bool :=
  let sanitized := stripSpaces code
  if !(isSixDigitCode sanitized) then false
  else ([0, -1, 1] : List Int).any (fun offset =>
    generateTwoFactorCode secret (now + offset * 30000) == sanitized)

/-- Embeds the `StoredAccount` record persisted in the accounts store. -/
structure StoredAccount where
  id : String
  name : String
  email : String
  createdAt : String
  password : String
  twoFactorEnabled : Bool
  emailVerified : Bool
  twoFactorSecret : Option String
  recoveryCodes : List String
  verificationCode : Option String
  verificationExpiresAt : Option Int
  deriving Repr, DecidableEq

/-- Embeds the outward `User` projection (session user). -/
structure User where
  id : String
  name : String
  email : String
  createdAt : String
  twoFactorEnabled : Bool
  emailVerified : Bool
  deriving Repr, DecidableEq

/-- Embeds `TwoFactorChallenge`. -/
structure TwoFactorChallenge where
  challengeId : String
  accountId : String
  issuedAt : Int
  deriving Repr, DecidableEq

/-- Embeds the `pendingVerification` hint record. -/
structure PendingVerification where
  email : String
  expiresAt : Option String
  deriving Repr, DecidableEq

/-- The component state: the four `useState` cells of `AuthProvider`. -/
structure AuthState where
  accounts : List StoredAccount
  challenges : List TwoFactorChallenge
  user : Option User
  pending : Option PendingVerification
  deriving Repr, DecidableEq

/-- The outward `User` projection of a stored account, as each operation
builds it field by field. -/
def projectUser (account : StoredAccount) : User :=
  { id := account.id, name := account.name, email := account.email,
    createdAt := account.createdAt,
    twoFactorEnabled := account.twoFactorEnabled,
    emailVerified := account.emailVerified }

/-- Error taxonomy of the provider; each constructor stands for one
distinct `new Error(message)` site of the source. -/
inductive AuthError where
  /-- register / verifyEmail / resend: message `Вкажіть email`. -/
  | emailRequired
  /-- register: password shorter than six characters after trimming. -/
  | weakPassword
  /-- register: a verified account already owns the email. -/
  | conflict
  /-- the awaited e-mail send failed; carries the surfaced message. -/
  | deliveryFailed (message : String)
  /-- login: unknown email or wrong password (single shared message). -/
  | invalidCredentials
  /-- login: submitted two-factor code did not validate. -/
  | invalidTwoFactorCode
  /-- verifyEmail: empty confirmation code. -/
  | codeRequired
  /-- account lookup failed (`Акаунт не знайдено`). -/
  | accountNotFound
  /-- verifyEmail: no stored verification code. -/
  | noPendingCode
  /-- verifyEmail: stored and submitted codes differ. -/
  | codeMismatch
  /-- verifyEmail: stored code is past its expiry. -/
  | codeExpired
  /-- resendVerification: email already verified. -/
  | alreadyVerified
  /-- verifyTwoFactor: unknown challenge id. -/
  | challengeNotFound
  /-- verifyTwoFactor: recovery code matched nothing. -/
  | invalidRecoveryCode
  /-- verifyTwoFactor: numeric code did not validate. -/
  | invalidCode2FA
  /-- verifyTwoFactor: neither code nor recovery code supplied. -/
  | missingTwoFactorInput
  /-- update: no authenticated user. -/
  | notAuthorized
  /-- update: normalized email is empty. -/
  | emailEmpty
  /-- update: email owned by a different account. -/
  | emailConflict
  deriving Repr, DecidableEq

/-- Result of `register`: the `pending-verification` record it returns. -/
structure RegisterResult where
  email : String
  recoveryCodes : List String
  expiresAt : String
  deriving Repr, DecidableEq

/-- Result of `login`: the three terminal outcomes of the source. -/
inductive LoginResult where
  | success (user : User)
  | needsVerification (email : String) (message : String)
  | twoFactor (challengeId : String) (message : String)
  deriving Repr, DecidableEq

/-- The fixed prose of the `needs-verification` outcome. -/
def needsVerificationMessage : String :=
  "Потрібно підтвердити email. Введіть код із листа або надішліть новий."

/-- Hint appended by `sendVerificationEmail` when the collaborator error
mentions an unreachable API server. -/
def serverHintMessage : String :=
  ". Переконайтесь, що API сервер запущено (python server.py)."

/-- Prefix test on character lists. -/
def leadsWith : List Char → List Char → Bool
  | [], _ => true
  | _ :: _, [] => false
  | p :: ps, c :: cs => p == c && leadsWith ps cs

/-- Occurrence test on character lists: the pattern occurs somewhere. -/
def occursIn (pattern : List Char) : List Char → Bool
  | [] => leadsWith pattern []
  | c :: cs => leadsWith pattern (c :: cs) || occursIn pattern cs

/-- Occurrence test for `message.includes(pattern)`. -/
def containsSubstr (s pattern : String) : Bool :=
  occursIn pattern.data s.data

/-- Embeds the message handling of the `sendVerificationEmail` wrapper:
the collaborator message passes through, with the server hint appended
when it contains `Failed to fetch` or `Network`. -/
def deliveryMessage (message : String) : String :=
  if containsSubstr message "Failed to fetch" || containsSubstr message "Network" then
    message ++ serverHintMessage
  else message

/-- Embeds the `sendVerificationEmail` wrapper as a whole: the argument
is the collaborator outcome, the result the wrapper outcome. -/
def sendVerification (outcome : Except String Unit) : Except String Unit :=
  match outcome with
  | .ok _ => .ok ()
  | .error msg => .error (deliveryMessage msg)

/-- Fresh random values drawn by one `register` call: `createId()`,
`new Date().toISOString()`, `generateRecoveryCodes()`,
`createVerificationCode()`, `generateTwoFactorSecret()` and the rendered
expiry instant `new Date(expiresAtTs).toISOString()`. -/
structure RegisterFresh where
  newId : String
  nowIso : String
  recoveryCodes : List String
  verificationCode : String
  secret : String
  expiresIso : String
  deriving Repr, DecidableEq

/-- Embeds `register`.  Checks run on the snapshot state; the awaited
send happens before any state effect; on success the account list is
updated by id (replace when present, append otherwise) and the pending
verification hint is recorded. -/
def register (st : AuthState) (now : Int) (fresh : RegisterFresh)
    (sendOutcome : Except String Unit) (name email password : String) :
    Except AuthError RegisterResult × AuthState :=
  let normalizedEmail := normalizeEmail email
  let normalizedName := normalizeName name
  if normalizedEmail == "" then (.error .emailRequired, st)
  else if password == "" || (jsTrim password).length < 6 then (.error .weakPassword, st)
  else
    let existing := st.accounts.find? (fun acc => acc.email == normalizedEmail)
    if (existing.map (·.emailVerified)).getD false then (.error .conflict, st)
    else
      let trimmedPassword := jsTrim password
      let expiresAtTs := now + VERIFICATION_EXPIRY_MS
      let accountId := (existing.map (·.id)).getD fresh.newId
      let createdAt := (existing.map (·.createdAt)).getD fresh.nowIso
      let secret := (existing.bind (·.twoFactorSecret)).getD fresh.secret
      match sendVerification sendOutcome with
      | .error msg => (.error (.deliveryFailed msg), st)
      | .ok _ =>
        let nextAccount : StoredAccount :=
          { id := accountId, name := normalizedName, email := normalizedEmail,
            createdAt := createdAt, password := trimmedPassword,
            twoFactorEnabled := false, emailVerified := false,
            twoFactorSecret := some secret,
            recoveryCodes := fresh.recoveryCodes,
            verificationCode := some fresh.verificationCode,
            verificationExpiresAt := some expiresAtTs }
        let accounts1 :=
          if st.accounts.any (fun acc => acc.id == accountId) then
            st.accounts.map (fun acc => if acc.id == accountId then nextAccount else acc)
          else st.accounts ++ [nextAccount]
        let st1 := { st with
          accounts := accounts1,
          pending := some { email := normalizedEmail, expiresAt := some fresh.expiresIso } }
        (.ok { email := normalizedEmail, recoveryCodes := fresh.recoveryCodes,
               expiresAt := fresh.expiresIso }, st1)

/-- Key-keeping insertion of `{...prev, [challengeId]: challenge}`. -/
def insertChallenge (cs : List TwoFactorChallenge) (c : TwoFactorChallenge) :
    List TwoFactorChallenge :=
  if cs.any (fun x => x.challengeId == c.challengeId) then
    cs.map (fun x => if x.challengeId == c.challengeId then c else x)
  else cs ++ [c]

/-- The code shown inside the challenge hint: the current code of the
account secret, or of the account id when no secret is stored. -/
def challengeHintCode (account : StoredAccount) (issuedAt : Int) : String :=
  if jsTruthy account.twoFactorSecret then
    generateTwoFactorCode (account.twoFactorSecret.getD "") issuedAt
  else generateTwoFactorCode account.id issuedAt

/-- The full hint message returned by `issueChallenge`. -/
def challengeHint (account : StoredAccount) (issuedAt : Int) : String :=
  "Введіть код із додатку або резервний код. Поточний код (для тесту): "
    ++ challengeHintCode account issuedAt

/-- Embeds `issueChallenge`: registers a fresh challenge for the account
and returns its id together with the hint message. -/
def issueChallenge (st : AuthState) (account : StoredAccount)
    (challengeId : String) (now : Int) : (String × String) × AuthState :=
  let issuedAt := now
  let st1 := { st with
    challenges := insertChallenge st.challenges
      { challengeId := challengeId, accountId := account.id, issuedAt := issuedAt } }
  ((challengeId, challengeHint account issuedAt), st1)

/-- Renders `new Date(ts).toISOString()` opaquely; login only forwards
the string into the pending-verification hint. -/
structure IsoClock where
  isoOf : Int → String

/-- Embeds `login`.  Note that in the two-factor branch the source calls
`issueChallenge` (a state effect) before throwing on a wrong code, which
the returned state reflects. -/
def login (st : AuthState) (now : Int) (clock : IsoClock)
    (freshChallengeId : String) (email password : String) (code : Option String) :
    Except AuthError LoginResult × AuthState :=
  let normalizedEmail := normalizeEmail email
  match st.accounts.find? (fun acc => acc.email == normalizedEmail) with
  | none => (.error .invalidCredentials, st)
  | some account =>
    if !(account.password == jsTrim password) then (.error .invalidCredentials, st)
    else if !account.emailVerified then
      let expiresAtIso : Option String :=
        match account.verificationExpiresAt with
        | some ts => if ts == 0 then none else some (clock.isoOf ts)
        | none => none
      let st1 := { st with pending := some { email := account.email, expiresAt := expiresAtIso } }
      (.ok (.needsVerification account.email needsVerificationMessage), st1)
    else if account.twoFactorEnabled then
      if jsTruthy code && jsTruthy account.twoFactorSecret
          && verifyTwoFactorCode (account.twoFactorSecret.getD "") (code.getD "") now then
        let nextUser := { projectUser account with twoFactorEnabled := true }
        let st1 := { st with user := some nextUser, pending := none }
        (.ok (.success nextUser), st1)
      else
        let issued := issueChallenge st account freshChallengeId now
        if jsTruthy code then (.error .invalidTwoFactorCode, issued.2)
        else
          let st1 := { issued.2 with pending := none }
          (.ok (.twoFactor issued.1.1 issued.1.2), st1)
    else
      let nextUser := { projectUser account with twoFactorEnabled := false }
      let st1 := { st with user := some nextUser, pending := none }
      (.ok (.success nextUser), st1)

/-- Embeds `verifyEmail` (the confirm step of the verification flow). -/
def verifyEmail (st : AuthState) (now : Int) (email code : String) :
    Except AuthError User × AuthState :=
  let normalizedEmail := normalizeEmail email
  let sanitizedCode := normalizeCode code
  if normalizedEmail == "" then (.error .emailRequired, st)
  else if sanitizedCode == "" then (.error .codeRequired, st)
  else
    match st.accounts.find? (fun acc => acc.email == normalizedEmail) with
    | none => (.error .accountNotFound, st)
    | some account =>
      if account.emailVerified then
        let existingUser := { projectUser account with emailVerified := true }
        (.ok existingUser, { st with user := some existingUser, pending := none })
      else if !(jsTruthy account.verificationCode) then (.error .noPendingCode, st)
      else if !(account.verificationCode.getD "" == sanitizedCode) then
        (.error .codeMismatch, st)
      else if (match account.verificationExpiresAt with
               | some ts => !(ts == 0) && ts < now
               | none => false) then
        (.error .codeExpired, st)
      else
        let updatedAccount := { account with
          emailVerified := true,
          verificationCode := none, verificationExpiresAt := none }
        let nextUser := { projectUser updatedAccount with emailVerified := true }
        let st1 := { st with
          accounts := st.accounts.map
            (fun acc => if acc.id == updatedAccount.id then updatedAccount else acc),
          user := some nextUser, pending := none }
        (.ok nextUser, st1)

/-- Embeds `resendVerification`: the awaited send precedes every state
effect; on success the stored code and expiry are replaced. -/
def resendVerification (st : AuthState) (now : Int)
    (freshCode : String) (expiresIso : String)
    (sendOutcome : Except String Unit) (email : String) :
    Except AuthError Unit × AuthState :=
  let normalizedEmail := normalizeEmail email
  if normalizedEmail == "" then (.error .emailRequired, st)
  else
    match st.accounts.find? (fun acc => acc.email == normalizedEmail) with
    | none => (.error .accountNotFound, st)
    | some account =>
      if account.emailVerified then (.error .alreadyVerified, st)
      else
        let expiresAtTs := now + VERIFICATION_EXPIRY_MS
        match sendVerification sendOutcome with
        | .error msg => (.error (.deliveryFailed msg), st)
        | .ok _ =>
          let updatedAccount := { account with
          verificationCode := some freshCode,
          verificationExpiresAt := some expiresAtTs,
          emailVerified := false }
          let st1 := { st with
            accounts := st.accounts.map
              (fun acc => if acc.id == updatedAccount.id then updatedAccount else acc),
            pending := some { email := normalizedEmail, expiresAt := some expiresIso } }
          (.ok (), st1)

/-- Embeds `verifyTwoFactor`.  A supplied recovery code takes precedence;
its consumption filters out every occurrence matching under
`normalizeCode`, and an emptied set is replaced by `freshRecoveryCodes`
(the model argument standing for `generateRecoveryCodes()`). -/
def verifyTwoFactor (st : AuthState) (now : Int)
    (freshRecoveryCodes : List String) (challengeId : String)
    (code recoveryCode : Option String) :
    Except AuthError User × AuthState :=
  match st.challenges.find? (fun c => c.challengeId == challengeId) with
  | none => (.error .challengeNotFound, st)
  | some challenge =>
    match st.accounts.find? (fun acc => acc.id == challenge.accountId) with
    | none => (.error .accountNotFound, st)
    | some account =>
      if jsTruthy recoveryCode then
        let normalizedRecovery := normalizeCode (recoveryCode.getD "")
        if !(account.recoveryCodes.any
              (fun rc => normalizeCode rc == normalizedRecovery)) then
          (.error .invalidRecoveryCode, st)
        else
          let reduced := account.recoveryCodes.filter
            (fun rc => !(normalizeCode rc == normalizedRecovery))
          let account1 := { account with recoveryCodes := reduced }
          let nextUser := projectUser account1
          let st1 := { st with
            user := some nextUser, pending := none,
            accounts := st.accounts.map
              (fun acc => if acc.id == account1.id then account1 else acc),
            challenges := st.challenges.filter
              (fun c => !(c.challengeId == challengeId)) }
          if reduced.isEmpty then
            let st2 := { st1 with
              accounts := st1.accounts.map
                (fun acc => if acc.id == account1.id then
                  { acc with recoveryCodes := freshRecoveryCodes } else acc) }
            (.ok nextUser, st2)
          else (.ok nextUser, st1)
      else if jsTruthy code && jsTruthy account.twoFactorSecret then
        if verifyTwoFactorCode (account.twoFactorSecret.getD "") (code.getD "") now then
          let nextUser := projectUser account
          let st1 := { st with
            user := some nextUser, pending := none,
            accounts := st.accounts.map
              (fun acc => if acc.id == account.id then account else acc),
            challenges := st.challenges.filter
              (fun c => !(c.challengeId == challengeId)) }
          (.ok nextUser, st1)
        else (.error .invalidCode2FA, st)
      else (.error .missingTwoFactorInput, st)

/-- Embeds the periodic `cleanupChallenges` sweep: entries whose issue
time plus the TTL is not in the future are dropped. -/
def cleanupChallenges (st : AuthState) (now : Int) : AuthState :=
  { st with challenges :=
      st.challenges.filter (fun c => decide (c.issuedAt + CHALLENGE_EXPIRY_MS > now)) }

/-- Embeds `update` (profile update). -/
def update (st : AuthState) (patchName patchEmail : Option String) :
    Except AuthError User × AuthState :=
  match st.user with
  | none => (.error .notAuthorized, st)
  | some user =>
    let nextName := match patchName with
      | some n => normalizeName n
      | none => user.name
    let nextEmail := match patchEmail with
      | some e => normalizeEmail e
      | none => user.email
    if nextEmail == "" then (.error .emailEmpty, st)
    else if !(nextEmail == user.email)
        && st.accounts.any (fun acc => acc.email == nextEmail && !(acc.id == user.id)) then
      (.error .emailConflict, st)
    else
      let nextUser := { user with name := nextName, email := nextEmail }
      let st1 := { st with
        user := some nextUser,
        accounts := st.accounts.map
          (fun acc => if acc.id == user.id then
            { acc with name := nextName, email := nextEmail } else acc) }
      (.ok nextUser, st1)

/-! Helper lemmas about list lookup under the replacement and filter
patterns the operations use. -/

/-- Lookup fails on a filtered list when every element satisfying the
lookup predicate was dropped by the filter. -/
theorem find?_filter_eq_none {α : Type} (l : List α) (p q : α → Bool)
    (h : ∀ x ∈ l, p x = true → q x = false) :
    (l.filter q).find? p = none := by
  rw [List.find?_eq_none]
  intro x hx
  rcases List.mem_filter.mp hx with ⟨hmem, hq⟩
  intro hp
  rw [h x hmem hp] at hq
  exact Bool.false_ne_true hq

/-- Fixture account for the concrete witness states. -/
def baseAccount : StoredAccount :=
  { id := "u1", name := "Ana", email := "ana@x.com", createdAt := "t0",
    password := "secret1", twoFactorEnabled := false, emailVerified := true,
    twoFactorSecret := some "ABCDEF", recoveryCodes := ["AA2-BB3"],
    verificationCode := none, verificationExpiresAt := none }

/-- Fixture clock rendering every instant to the same opaque string. -/
def baseClock : IsoClock := { isoOf := fun _ => "iso" }

/-- Store with no accounts, no challenges, nobody logged in. -/
def emptyStore : AuthState :=
  { accounts := [], challenges := [], user := none, pending := none }

/-- Fixture fresh values for `register`. -/
def baseFresh : RegisterFresh :=
  { newId := "n1", nowIso := "now", recoveryCodes := ["R2-R2"],
    verificationCode := "123456", secret := "SECR", expiresIso := "exp" }

/-! ### C3: uniform `InvalidCredentials` on unknown email and on wrong
password -/

/-- C3.  `login` produces one and the same failure — the
`invalidCredentials` error with the state unchanged — both when no
account matches the normalized email and when the matched account stores
a password different from the trimmed submitted one, so the two failing
runs are observationally identical. -/
theorem login_uniform_invalid_credentials
    (st : AuthState) (now : Int) (clock : IsoClock) (cid email password : String)
    (code : Option String) :
    (st.accounts.find? (fun acc => acc.email == normalizeEmail email) = none →
      login st now clock cid email password code = (.error .invalidCredentials, st)) ∧
    (∀ a, st.accounts.find? (fun acc => acc.email == normalizeEmail email) = some a →
      ¬(a.password = jsTrim password) →
      login st now clock cid email password code = (.error .invalidCredentials, st)) := by
  constructor
  · intro hnone
    simp only [login, hnone]
  · intro a hfind hpw
    simp only [login, hfind, beq_eq_false_iff_ne.mpr hpw, Bool.not_false, if_true]

/-- Witness for C3: both failure modes observed on a concrete store. -/
theorem login_uniform_invalid_credentials_witness :
    login { accounts := [baseAccount], challenges := [], user := none, pending := none }
        0 baseClock "c" "nobody@x.com" "secret1" none
      = (.error .invalidCredentials,
         { accounts := [baseAccount], challenges := [], user := none, pending := none }) ∧
    login { accounts := [baseAccount], challenges := [], user := none, pending := none }
        0 baseClock "c" "ana@x.com" "wrong" none
      = (.error .invalidCredentials,
         { accounts := [baseAccount], challenges := [], user := none, pending := none }) := by
  constructor
  · exact (login_uniform_invalid_credentials _ 0 baseClock "c" "nobody@x.com" "secret1" none).1
      (by decide)
  · exact (login_uniform_invalid_credentials _ 0 baseClock "c" "ana@x.com" "wrong" none).2
      baseAccount (by decide) (by decide)

/-! ### C1: expiry of two-factor challenges -/

/-- State with a single two-factor account and one challenge issued at
time 0, long expired by time 1000000000. -/
def expiredChallengeState : AuthState :=
  { accounts := [{ baseAccount with twoFactorEnabled := true }],
    challenges := [{ challengeId := "ch1", accountId := "u1", issuedAt := 0 }],
    user := none, pending := none }

/-- C1 fails as stated: a challenge whose issue timestamp lies more than
the TTL in the past but which the sweep has not yet removed is accepted
by `verifyTwoFactor` — the call returns a session user instead of the
claimed `NotFound` failure, because the lookup checks only presence. -/
theorem verifyTwoFactor_accepts_expired_challenge :
    ((0 : Int) + CHALLENGE_EXPIRY_MS ≤ 1000000000) ∧
    (verifyTwoFactor expiredChallengeState 1000000000 ["R2-R2"] "ch1"
        (some (generateTwoFactorCode "ABCDEF" 1000000000)) none).1
      = .ok (projectUser { baseAccount with twoFactorEnabled := true }) := by
  exact ⟨by decide, rfl⟩

/-- C1 (amended).  `verifyTwoFactor` fails with the not-found error
exactly when the challenge id is absent from the registry; TTL
enforcement lives in the periodic sweep alone.  Consequently, once
`cleanupChallenges` has run at a time by which every challenge under the
id is expired, verification fails with the not-found error and the state
is untouched. -/
theorem verifyTwoFactor_rejects_after_sweep
    (st : AuthState) (now : Int) (fresh : List String) (cid : String)
    (code rc : Option String)
    (h : ∀ c ∈ st.challenges, c.challengeId = cid →
      c.issuedAt + CHALLENGE_EXPIRY_MS ≤ now) :
    verifyTwoFactor (cleanupChallenges st now) now fresh cid code rc
      = (.error .challengeNotFound, cleanupChallenges st now) := by
  have hfind : (cleanupChallenges st now).challenges.find?
      (fun c => c.challengeId == cid) = none := by
    simp only [cleanupChallenges]
    refine find?_filter_eq_none _ _ _ (fun c hc hp => ?_)
    have hcid : c.challengeId = cid := by simpa using hp
    have hle := h c hc hcid
    simp only [decide_eq_false_iff_not, not_lt]
    omega
  simp only [verifyTwoFactor, hfind]

/-- Witness for the amended C1 at the concrete expired state. -/
theorem verifyTwoFactor_rejects_after_sweep_witness :
    verifyTwoFactor (cleanupChallenges expiredChallengeState 1000000000)
        1000000000 ["R2-R2"] "ch1" none none
      = (.error .challengeNotFound, cleanupChallenges expiredChallengeState 1000000000) :=
  verifyTwoFactor_rejects_after_sweep _ _ _ _ _ _ (by decide)

/-! ### C9: profile-update email conflict -/

/-- Store in which the logged-in user `u1` renames to an email held by a
different, unverified account `u2`. -/
def conflictPatchState : AuthState :=
  { accounts := [baseAccount,
      { baseAccount with id := "u2", email := "b@x.com", emailVerified := false }],
    challenges := [], user := some (projectUser baseAccount), pending := none }

/-- C9 fails as stated: every account holding the requested email in
this store is unverified, yet `update` still fails with the email
conflict — the conflict test of the source never consults
`emailVerified`. -/
theorem update_unverified_collision_still_conflicts :
    (∀ acc ∈ conflictPatchState.accounts,
      acc.email = normalizeEmail "b@x.com" → acc.emailVerified = false) ∧
    update conflictPatchState none (some "b@x.com")
      = (.error .emailConflict, conflictPatchState) := by
  exact ⟨by decide, rfl⟩

/-- C9 (amended).  `update` re-normalizes the submitted name and email
and, when the email changes, fails with the email-conflict error exactly
when any different account — verified or not — holds the new normalized
email; otherwise it succeeds with the re-normalized profile. -/
theorem update_email_conflict_any_account
    (st : AuthState) (user : User) (patchName : Option String) (e : String)
    (huser : st.user = some user)
    (hne : ¬(normalizeEmail e = ""))
    (hchange : ¬(normalizeEmail e = user.email)) :
    ((∃ acc ∈ st.accounts, acc.email = normalizeEmail e ∧ ¬(acc.id = user.id)) →
      update st patchName (some e) = (.error .emailConflict, st)) ∧
    ((∀ acc ∈ st.accounts, acc.email = normalizeEmail e → acc.id = user.id) →
      (update st patchName (some e)).1 = .ok { user with
        name := match patchName with | some n => normalizeName n | none => user.name,
        email := normalizeEmail e }) := by
  constructor
  · rintro ⟨acc, hmem, hemail, hid⟩
    have hany : st.accounts.any
        (fun a => a.email == normalizeEmail e && !(a.id == user.id)) = true :=
      List.any_eq_true.mpr ⟨acc, hmem, by
        simp [hemail, beq_eq_false_iff_ne.mpr hid]⟩
    simp [update, huser, hne, hchange, hany]
  · intro hall
    have hany : st.accounts.any
        (fun a => a.email == normalizeEmail e && !(a.id == user.id)) = false := by
      rw [List.any_eq_false]
      intro acc hmem
      by_cases hemail : acc.email = normalizeEmail e
      · simp [hemail, hall acc hmem hemail]
      · simp [beq_eq_false_iff_ne.mpr hemail]
    simp [update, huser, hne, hchange, hany]

/-- Witness for the amended C9: the conflict side fires on the concrete
two-account store, and the success side on a store owning no other
account under the email. -/
theorem update_email_conflict_any_account_witness :
    update conflictPatchState none (some "b@x.com")
      = (.error .emailConflict, conflictPatchState) ∧
    (update { conflictPatchState with accounts := [baseAccount] } none
        (some "b@x.com")).1
      = .ok { projectUser baseAccount with email := "b@x.com" } := by
  constructor
  · exact (update_email_conflict_any_account conflictPatchState
      (projectUser baseAccount) none "b@x.com" rfl (by decide) (by decide)).1
      ⟨{ baseAccount with id := "u2", email := "b@x.com", emailVerified := false },
        by decide, by decide, by decide⟩
  · exact (update_email_conflict_any_account
      { conflictPatchState with accounts := [baseAccount] }
      (projectUser baseAccount) none "b@x.com" rfl (by decide) (by decide)).2
      (by decide)

/-! ### C8: the awaited e-mail send precedes every state effect -/

/-- C8.  When the e-mail collaborator fails, `register` and
`resendVerification` raise the delivery failure carrying the
collaborator message (with at most the server hint appended, as the
wrapper does) and return the state exactly as it was before the call:
no account mutation and no pending-verification record happen before the
awaited send resolves. -/
theorem register_resend_unchanged_on_delivery_failure
    (st : AuthState) (now : Int) (fresh : RegisterFresh)
    (name email password m freshCode expIso : String) :
    (¬(normalizeEmail email = "") → ¬(password = "") →
     ¬((jsTrim password).length < 6) →
     ((st.accounts.find? (fun acc => acc.email == normalizeEmail email)).map
        (fun acc => acc.emailVerified)).getD false = false →
      register st now fresh (.error m) name email password
        = (.error (.deliveryFailed (deliveryMessage m)), st)) ∧
    (∀ a, ¬(normalizeEmail email = "") →
      st.accounts.find? (fun acc => acc.email == normalizeEmail email) = some a →
      a.emailVerified = false →
      resendVerification st now freshCode expIso (.error m) email
        = (.error (.deliveryFailed (deliveryMessage m)), st)) ∧
    (deliveryMessage m = m ++ serverHintMessage ∨ deliveryMessage m = m) := by
  refine ⟨?_, ?_, ?_⟩
  · intro hne hp1 hp2 hnoconf
    simp [register, beq_eq_false_iff_ne.mpr hne, beq_eq_false_iff_ne.mpr hp1,
      hp2, hnoconf, sendVerification]
  · intro a hne hfind hver
    simp [resendVerification, beq_eq_false_iff_ne.mpr hne, hfind, hver,
      sendVerification]
  · unfold deliveryMessage
    split
    · exact Or.inl rfl
    · exact Or.inr rfl

/-- Witness for C8: a failing send against an empty store (register) and
against an unverified account (resend) leaves each state untouched. -/
theorem register_resend_unchanged_on_delivery_failure_witness :
    register { accounts := [], challenges := [], user := none, pending := none }
        0 baseFresh (.error "boom") "Ana" "ana@x.com" "secret1"
      = (.error (.deliveryFailed "boom"),
         { accounts := [], challenges := [], user := none, pending := none }) ∧
    resendVerification
        { accounts := [{ baseAccount with emailVerified := false }],
          challenges := [], user := none, pending := none }
        0 "654321" "exp" (.error "boom") "ana@x.com"
      = (.error (.deliveryFailed "boom"),
         { accounts := [{ baseAccount with emailVerified := false }],
           challenges := [], user := none, pending := none }) := by
  have hmsg : deliveryMessage "boom" = "boom" := by decide
  constructor
  · have h := (register_resend_unchanged_on_delivery_failure
      { accounts := [], challenges := [], user := none, pending := none }
      0 baseFresh "Ana" "ana@x.com" "secret1" "boom" "654321" "exp").1
      (by decide) (by decide) (by decide) (by decide)
    rw [hmsg] at h
    exact h
  · have h := (register_resend_unchanged_on_delivery_failure
      { accounts := [{ baseAccount with emailVerified := false }],
        challenges := [], user := none, pending := none }
      0 baseFresh "Ana" "ana@x.com" "secret1" "boom" "654321" "exp").2.1
      { baseAccount with emailVerified := false }
      (by decide) (by decide) (by decide)
    rw [hmsg] at h
    exact h

/-! ### C2: duplicate registration -/

/-- First-match lookup returns the unique element satisfying the
predicate. -/
theorem find?_eq_some_of_unique {α : Type} (l : List α) (p : α → Bool) (a : α)
    (ha : a ∈ l) (hpa : p a = true)
    (huniq : ∀ b ∈ l, p b = true → b = a) :
    l.find? p = some a := by
  induction l with
  | nil => cases ha
  | cons x xs ih =>
    by_cases hx : p x = true
    · rw [List.find?_cons_of_pos _ hx, huniq x (List.mem_cons_self x xs) hx]
    · rw [List.find?_cons_of_neg _ (by simpa using hx)]
      rcases List.mem_cons.mp ha with h | h
      · exact absurd (h ▸ hpa) hx
      · exact ih h (fun b hb hpb => huniq b (List.mem_cons_of_mem _ hb) hpb)

/-- The account record `register` writes when it supersedes the pending
account `a`: the id, creation instant and (when present) two-factor
secret survive, everything else is replaced. -/
def supersededAccount (a : StoredAccount) (now : Int) (fresh : RegisterFresh)
    (name email password : String) : StoredAccount :=
  { id := a.id, name := normalizeName name, email := normalizeEmail email,
    createdAt := a.createdAt, password := jsTrim password,
    twoFactorEnabled := false, emailVerified := false,
    twoFactorSecret := some (a.twoFactorSecret.getD fresh.secret),
    recoveryCodes := fresh.recoveryCodes,
    verificationCode := some fresh.verificationCode,
    verificationExpiresAt := some (now + VERIFICATION_EXPIRY_MS) }

/-- C2.  With `a` the unique account under the normalized email:
if `a` is verified, `register` fails with the conflict error and leaves
the state unchanged; if `a` is unverified, `register` succeeds and
overwrites that pending record in place (same id, same creation time),
recording the new pending verification. -/
theorem register_conflict_and_supersede
    (st : AuthState) (now : Int) (fresh : RegisterFresh) (so : Except String Unit)
    (name email password : String) (a : StoredAccount)
    (hne : ¬(normalizeEmail email = ""))
    (hp1 : ¬(password = "")) (hp2 : ¬((jsTrim password).length < 6))
    (hmem : a ∈ st.accounts) (haemail : a.email = normalizeEmail email)
    (huniq : ∀ b ∈ st.accounts, b.email = normalizeEmail email → b = a) :
    (a.emailVerified = true →
      register st now fresh so name email password = (.error .conflict, st)) ∧
    (a.emailVerified = false → sendVerification so = .ok () →
      register st now fresh so name email password
        = (.ok { email := normalizeEmail email,
                 recoveryCodes := fresh.recoveryCodes,
                 expiresAt := fresh.expiresIso },
           { st with
             accounts := st.accounts.map (fun acc =>
               if acc.id == a.id then
                 supersededAccount a now fresh name email password
               else acc),
             pending := some { email := normalizeEmail email,
                               expiresAt := some fresh.expiresIso } })) := by
  have hfind : st.accounts.find? (fun acc => acc.email == normalizeEmail email)
      = some a :=
    find?_eq_some_of_unique _ _ a hmem (by simp [haemail])
      (fun b hb hpb => huniq b hb (by simpa using hpb))
  constructor
  · intro hv
    simp [register, beq_eq_false_iff_ne.mpr hne, beq_eq_false_iff_ne.mpr hp1,
      hp2, hfind, hv]
  · intro hv hsend
    have hany : st.accounts.any (fun acc => acc.id == a.id) = true :=
      List.any_eq_true.mpr ⟨a, hmem, by simp⟩
    simp [register, beq_eq_false_iff_ne.mpr hne, beq_eq_false_iff_ne.mpr hp1,
      hp2, hfind, hv, hsend, hany, supersededAccount]

/-- Store holding only the verified fixture account. -/
def verifiedStore : AuthState :=
  { accounts := [baseAccount], challenges := [], user := none, pending := none }

/-- Fixture account in its pre-verification state. -/
def pendingAccount : StoredAccount := { baseAccount with emailVerified := false }

/-- Store holding only the pending (unverified) fixture account. -/
def pendingStore : AuthState :=
  { accounts := [pendingAccount], challenges := [], user := none, pending := none }

/-- Witness for C2: the conflict side on a verified store, the
supersede side on a pending store. -/
theorem register_conflict_and_supersede_witness :
    register verifiedStore 7 baseFresh (.ok ()) "Ana" "ana@x.com" "secret1"
      = (.error .conflict, verifiedStore) ∧
    register pendingStore 7 baseFresh (.ok ()) "Ana" "ana@x.com" "secret1"
      = (.ok { email := "ana@x.com", recoveryCodes := baseFresh.recoveryCodes,
               expiresAt := baseFresh.expiresIso },
         { accounts := [supersededAccount pendingAccount
               7 baseFresh "Ana" "ana@x.com" "secret1"],
           challenges := [], user := none,
           pending := some { email := "ana@x.com",
                             expiresAt := some baseFresh.expiresIso } }) := by
  constructor
  · exact (register_conflict_and_supersede verifiedStore 7 baseFresh (.ok ())
      "Ana" "ana@x.com" "secret1" baseAccount (by decide) (by decide) (by decide)
      (by decide) (by decide) (by decide)).1 rfl
  · have h := (register_conflict_and_supersede pendingStore 7 baseFresh (.ok ())
      "Ana" "ana@x.com" "secret1" pendingAccount
      (by decide) (by decide) (by decide) (by decide) (by decide) (by decide)).2
      rfl rfl
    simpa using h

/-! ### C5: the two-factor login branch -/

/-- C5.  For a login whose password matches a verified, two-factor
enabled account: with no code submitted the call returns the two-factor
outcome carrying the freshly issued challenge id and hint and registers
the challenge; with a code that validates directly against the code
generator for the account secret it returns the session user; with a
truthy code that does not validate it fails with the invalid-code error
(the freshly issued challenge remaining registered, as the source issues
it before throwing). -/
theorem login_two_factor_branch
    (st : AuthState) (now : Int) (clock : IsoClock) (cid email password : String)
    (account : StoredAccount)
    (hfind : st.accounts.find? (fun acc => acc.email == normalizeEmail email)
      = some account)
    (hpw : account.password = jsTrim password)
    (hver : account.emailVerified = true)
    (h2fa : account.twoFactorEnabled = true) :
    (login st now clock cid email password none
      = (.ok (.twoFactor cid (challengeHint account now)),
         { st with
           challenges := insertChallenge st.challenges
             { challengeId := cid, accountId := account.id, issuedAt := now },
           pending := none })) ∧
    (∀ c, jsTruthy (some c) = true →
      jsTruthy account.twoFactorSecret = true →
      verifyTwoFactorCode (account.twoFactorSecret.getD "") c now = true →
      login st now clock cid email password (some c)
        = (.ok (.success { projectUser account with twoFactorEnabled := true }),
           { st with
             user := some { projectUser account with twoFactorEnabled := true },
             pending := none })) ∧
    (∀ c, jsTruthy (some c) = true →
      (jsTruthy account.twoFactorSecret
        && verifyTwoFactorCode (account.twoFactorSecret.getD "") c now) = false →
      login st now clock cid email password (some c)
        = (.error .invalidTwoFactorCode,
           { st with
             challenges := insertChallenge st.challenges
               { challengeId := cid, accountId := account.id, issuedAt := now } })) := by
  have hpwb : (account.password == jsTrim password) = true := beq_iff_eq.mpr hpw
  refine ⟨?_, ?_, ?_⟩
  · simp [login, hfind, hpwb, hver, h2fa, jsTruthy, issueChallenge]
  · intro c hc hs hv
    simp [login, hfind, hpwb, hver, h2fa, hc, hs, hv]
  · intro c hc hcond
    simp [login, hfind, hpwb, hver, h2fa, hc, hcond, issueChallenge]

/-- Fixture account with two-factor enabled. -/
def twoFactorAccount : StoredAccount := { baseAccount with twoFactorEnabled := true }

/-- Store holding only the two-factor fixture account. -/
def twoFactorStore : AuthState :=
  { accounts := [twoFactorAccount], challenges := [], user := none, pending := none }

/-- Witness for C5: the three outcomes observed at a concrete
two-factor account, including a passing and a failing six-digit code. -/
theorem login_two_factor_branch_witness :
    (login twoFactorStore 5555555 baseClock "c1" "ana@x.com" "secret1" none
      = (.ok (.twoFactor "c1" (challengeHint twoFactorAccount 5555555)),
         { twoFactorStore with
           challenges := insertChallenge twoFactorStore.challenges
             { challengeId := "c1", accountId := twoFactorAccount.id,
               issuedAt := 5555555 },
           pending := none })) ∧
    (login twoFactorStore 5555555 baseClock "c1" "ana@x.com" "secret1"
        (some (generateTwoFactorCode "ABCDEF" 5555555))
      = (.ok (.success { projectUser twoFactorAccount with twoFactorEnabled := true }),
         { twoFactorStore with
           user := some { projectUser twoFactorAccount with twoFactorEnabled := true },
           pending := none })) ∧
    (login twoFactorStore 5555555 baseClock "c1" "ana@x.com" "secret1" (some "000000")
      = (.error .invalidTwoFactorCode,
         { twoFactorStore with
           challenges := insertChallenge twoFactorStore.challenges
             { challengeId := "c1", accountId := twoFactorAccount.id,
               issuedAt := 5555555 } })) := by
  have h := login_two_factor_branch twoFactorStore 5555555 baseClock "c1"
    "ana@x.com" "secret1" twoFactorAccount (by decide) (by decide) rfl rfl
  exact ⟨h.1,
    h.2.1 (generateTwoFactorCode "ABCDEF" 5555555) (by decide) (by decide) (by decide),
    h.2.2 "000000" (by decide) (by decide)⟩

/-! ### C6: e-mail confirmation transitions once and is idempotent -/

/-- Replacing (by id) the element that a first-match lookup found, with a
replacement that still satisfies the lookup predicate, makes the lookup
return the replacement. -/
theorem find?_map_replace (l : List StoredAccount) (p : StoredAccount → Bool)
    (a a2 : StoredAccount)
    (hfind : l.find? p = some a) (hp2 : p a2 = true) :
    (l.map (fun x => if x.id == a.id then a2 else x)).find? p = some a2 := by
  induction l with
  | nil => simp at hfind
  | cons x xs ih =>
    simp only [List.map_cons]
    by_cases hxid : (x.id == a.id) = true
    · rw [if_pos hxid]
      exact List.find?_cons_of_pos _ hp2
    · rw [if_neg hxid]
      by_cases hx : p x = true
      · rw [List.find?_cons_of_pos _ hx] at hfind
        injection hfind with h
        exact absurd (by rw [h]; simp) hxid
      · rw [List.find?_cons_of_neg _ (by simpa using hx)] at hfind
        rw [List.find?_cons_of_neg _ (by simpa using hx)]
        exact ih hfind

/-- The account record after a successful confirmation: verified, with
the pending code and expiry cleared. -/
def confirmedAccount (account : StoredAccount) : StoredAccount :=
  { account with
    emailVerified := true,
    verificationCode := none, verificationExpiresAt := none }

/-- The already-verified branch of `verifyEmail`: it returns the session
user of the found account and only sets the active user and clears the
pending hint. -/
theorem verifyEmail_already_verified
    (st : AuthState) (now : Int) (email code : String) (a : StoredAccount)
    (hne : ¬(normalizeEmail email = ""))
    (hsc : ¬(normalizeCode code = ""))
    (hfind : st.accounts.find? (fun acc => acc.email == normalizeEmail email)
      = some a)
    (hver : a.emailVerified = true) :
    verifyEmail st now email code
      = (.ok { projectUser a with emailVerified := true },
         { st with
           user := some { projectUser a with emailVerified := true },
           pending := none }) := by
  simp [verifyEmail, hne, hsc, hfind, hver]

/-- C6.  Confirming with the correct pending code before its expiry
marks the account verified and clears the stored code and expiry; the
state after the call carries the in-place replaced account.  A second
confirm call for the same email — with any non-empty code — is
idempotent: it takes the already-verified branch, returns the same
session user and leaves the account store (indeed the whole state)
unchanged. -/
theorem verifyEmail_confirm_then_idempotent
    (st : AuthState) (now now2 : Int) (email code code2 : String)
    (account : StoredAccount)
    (hne : ¬(normalizeEmail email = ""))
    (hsc : ¬(normalizeCode code = ""))
    (hsc2 : ¬(normalizeCode code2 = ""))
    (hfind : st.accounts.find? (fun acc => acc.email == normalizeEmail email)
      = some account)
    (hunver : account.emailVerified = false)
    (hvc : account.verificationCode = some (normalizeCode code))
    (hexp : ∀ ts, account.verificationExpiresAt = some ts → now ≤ ts) :
    verifyEmail st now email code
      = (.ok { projectUser account with emailVerified := true },
         { st with
           accounts := st.accounts.map (fun acc =>
             if acc.id == account.id then confirmedAccount account else acc),
           user := some { projectUser account with emailVerified := true },
           pending := none }) ∧
    verifyEmail
        { st with
          accounts := st.accounts.map (fun acc =>
            if acc.id == account.id then confirmedAccount account else acc),
          user := some { projectUser account with emailVerified := true },
          pending := none }
        now2 email code2
      = (.ok { projectUser account with emailVerified := true },
         { st with
           accounts := st.accounts.map (fun acc =>
             if acc.id == account.id then confirmedAccount account else acc),
           user := some { projectUser account with emailVerified := true },
           pending := none }) := by
  have hguard : (match account.verificationExpiresAt with
      | some ts => !(ts == 0) && decide (ts < now)
      | none => false) = false := by
    cases h : account.verificationExpiresAt with
    | none => rfl
    | some ts =>
      have hle := hexp ts h
      simp only [Bool.and_eq_false_iff, decide_eq_false_iff_not, not_lt]
      exact Or.inr hle
  have hfind2 : ({ st with
      accounts := st.accounts.map (fun acc =>
        if acc.id == account.id then confirmedAccount account else acc),
      user := some { projectUser account with emailVerified := true },
      pending := none } : AuthState).accounts.find?
        (fun acc => acc.email == normalizeEmail email)
      = some (confirmedAccount account) := by
    have hp2 : (fun acc => acc.email == normalizeEmail email)
        (confirmedAccount account) = true := by
      have := List.find?_some hfind
      simpa [confirmedAccount] using this
    exact find?_map_replace st.accounts _ account (confirmedAccount account)
      hfind hp2
  constructor
  · simp [verifyEmail, hne, hsc, hfind, hunver, hvc,
      jsTruthy, hsc, hguard, confirmedAccount, projectUser]
  · have h2 := verifyEmail_already_verified _ now2 email code2
      (confirmedAccount account) hne hsc2 hfind2 (by simp [confirmedAccount])
    rw [h2]
    simp [confirmedAccount, projectUser]

/-- Fixture account awaiting confirmation of code `123456`. -/
def awaitingAccount : StoredAccount :=
  { baseAccount with
    emailVerified := false,
    verificationCode := some "123456", verificationExpiresAt := some 1000000 }

/-- Store holding only the awaiting fixture account. -/
def awaitingStore : AuthState :=
  { accounts := [awaitingAccount], challenges := [], user := none, pending := none }

/-- Witness for C6 at the fixture store: the first confirmation (with a
code submitted with surrounding whitespace) verifies the account, the
second returns the same user and leaves the state fixed. -/
theorem verifyEmail_confirm_then_idempotent_witness :
    verifyEmail awaitingStore 5 "ana@x.com" " 123456 "
      = (.ok { projectUser awaitingAccount with emailVerified := true },
         { awaitingStore with
           accounts := awaitingStore.accounts.map (fun acc =>
             if acc.id == awaitingAccount.id then confirmedAccount awaitingAccount
             else acc),
           user := some { projectUser awaitingAccount with emailVerified := true },
           pending := none }) ∧
    verifyEmail
        { awaitingStore with
          accounts := awaitingStore.accounts.map (fun acc =>
            if acc.id == awaitingAccount.id then confirmedAccount awaitingAccount
            else acc),
          user := some { projectUser awaitingAccount with emailVerified := true },
          pending := none }
        77 "ana@x.com" "999999"
      = (.ok { projectUser awaitingAccount with emailVerified := true },
         { awaitingStore with
           accounts := awaitingStore.accounts.map (fun acc =>
             if acc.id == awaitingAccount.id then confirmedAccount awaitingAccount
             else acc),
           user := some { projectUser awaitingAccount with emailVerified := true },
           pending := none }) :=
  verifyEmail_confirm_then_idempotent awaitingStore 5 77 "ana@x.com"
    " 123456 " "999999" awaitingAccount (by decide) (by decide) (by decide)
    (by decide) rfl (by decide) (by decide)

/-! ### C7: recovery-code consumption -/

/-- Codes left after consuming `candidate`: the source filters out every
stored code equal to the candidate under `normalizeCode`. -/
def remainingCodes (account : StoredAccount) (candidate : String) : List String :=
  account.recoveryCodes.filter
    (fun c => !(normalizeCode c == normalizeCode candidate))

/-- Fixture account whose recovery set holds a duplicated code. -/
def dupRecoveryAccount : StoredAccount :=
  { baseAccount with
    twoFactorEnabled := true,
    recoveryCodes := ["AB2-CD3", "AB2-CD3", "EF4-GH5"] }

/-- Store with the duplicated-code account and one live challenge. -/
def dupRecoveryState : AuthState :=
  { accounts := [dupRecoveryAccount],
    challenges := [{ challengeId := "ch1", accountId := "u1", issuedAt := 0 }],
    user := none, pending := none }

/-- C7 fails as stated: consuming `ab2-cd3` against a set holding the
matched code twice removes both occurrences, not exactly one — the
per-account occurrence count drops from 2 to 0 in a single successful
consumption, because the source filters all matches. -/
theorem verifyTwoFactor_consumes_all_occurrences :
    (dupRecoveryState.accounts.map
      (fun a => a.recoveryCodes.count "AB2-CD3") = [2]) ∧
    (verifyTwoFactor dupRecoveryState 5 ["N2-N2"] "ch1" none (some "ab2-cd3")).1
      = .ok (projectUser { dupRecoveryAccount with recoveryCodes := ["EF4-GH5"] }) ∧
    ((verifyTwoFactor dupRecoveryState 5 ["N2-N2"] "ch1" none (some "ab2-cd3")).2.accounts.map
      (fun a => a.recoveryCodes.count "AB2-CD3") = [0]) := by
  refine ⟨by decide, rfl, by decide⟩

/-- C7 (amended).  A successful recovery-code consumption removes every
stored occurrence matching the candidate under the case/space-insensitive
normalization (exactly one when the stored codes are distinct under it);
the session user is returned over the reduced set; no remaining code
still matches the consumed candidate; and when the reduction empties the
set it is replaced by the freshly generated set, so with a non-empty
generation the stored set is never left empty. -/
theorem verifyTwoFactor_recovery_consumption
    (st : AuthState) (now : Int) (fresh : List String) (cid : String)
    (code rc : Option String) (ch : TwoFactorChallenge) (account : StoredAccount)
    (hch : st.challenges.find? (fun c => c.challengeId == cid) = some ch)
    (hacc : st.accounts.find? (fun acc => acc.id == ch.accountId) = some account)
    (hrc : jsTruthy rc = true)
    (hmatch : account.recoveryCodes.any
      (fun c => normalizeCode c == normalizeCode (rc.getD "")) = true) :
    (verifyTwoFactor st now fresh cid code rc).1
      = .ok (projectUser
          { account with recoveryCodes := remainingCodes account (rc.getD "") }) ∧
    (verifyTwoFactor st now fresh cid code rc).2.accounts
      = st.accounts.map (fun acc =>
          if acc.id == account.id then
            { account with
              recoveryCodes :=
                if (remainingCodes account (rc.getD "")).isEmpty then fresh
                else remainingCodes account (rc.getD "") }
          else acc) ∧
    (∀ c ∈ remainingCodes account (rc.getD ""),
      ¬(normalizeCode c = normalizeCode (rc.getD ""))) ∧
    (¬(fresh = []) →
      ¬((if (remainingCodes account (rc.getD "")).isEmpty then fresh
         else remainingCodes account (rc.getD "")) = [])) := by
  refine ⟨?_, ?_, ?_, ?_⟩
  · simp [verifyTwoFactor, hch, hacc, hrc, hmatch, remainingCodes]
    split <;> simp
  · simp [verifyTwoFactor, hch, hacc, hrc, hmatch, remainingCodes, List.map_map]
    split
    · rename_i hval
      refine List.map_congr_left (fun x hx => ?_)
      by_cases hxid : x.id = account.id
      · simp [Function.comp, hxid, hval]
      · simp [Function.comp, hxid, hval]
    · rename_i hval
      refine List.map_congr_left (fun x hx => ?_)
      by_cases hxid : x.id = account.id
      · simp [Function.comp, hxid, hval]
      · simp [Function.comp, hxid, hval]
  · intro c hc
    have := List.mem_filter.mp hc
    simpa using this.2
  · intro hfresh
    by_cases hempty : (remainingCodes account (rc.getD "")).isEmpty = true
    · simpa [hempty] using hfresh
    · have hnonempty : ¬(remainingCodes account (rc.getD "") = []) := by
        intro h0
        exact hempty (by simp [h0])
      simpa [hempty] using hnonempty

/-- Witness for the amended C7 at the duplicated-code store. -/
theorem verifyTwoFactor_recovery_consumption_witness :
    (verifyTwoFactor dupRecoveryState 5 ["N2-N2"] "ch1" none (some "ab2-cd3")).1
      = .ok (projectUser { dupRecoveryAccount with
          recoveryCodes := remainingCodes dupRecoveryAccount "ab2-cd3" }) ∧
    (verifyTwoFactor dupRecoveryState 5 ["N2-N2"] "ch1" none (some "ab2-cd3")).2.accounts
      = dupRecoveryState.accounts.map (fun acc =>
          if acc.id == dupRecoveryAccount.id then
            { dupRecoveryAccount with
              recoveryCodes :=
                if (remainingCodes dupRecoveryAccount "ab2-cd3").isEmpty then ["N2-N2"]
                else remainingCodes dupRecoveryAccount "ab2-cd3" }
          else acc) := by
  have h := verifyTwoFactor_recovery_consumption dupRecoveryState 5 ["N2-N2"]
    "ch1" none (some "ab2-cd3")
    { challengeId := "ch1", accountId := "u1", issuedAt := 0 }
    dupRecoveryAccount rfl (by decide) (by decide) (by decide)
  exact ⟨h.1, h.2.1⟩

/-! ### C10: passwords are whitespace-trimmed on both interface sides -/

/-- The record written by the upsert step of `register` is a member of
the resulting store, whichever branch ran. -/
theorem mem_upsert (l : List StoredAccount) (n : StoredAccount) (aid : String) :
    n ∈ (if l.any (fun acc => acc.id == aid) then
          l.map (fun acc => if acc.id == aid then n else acc)
        else l ++ [n]) := by
  split
  · rename_i hany
    rcases List.any_eq_true.mp hany with ⟨x, hx, hxid⟩
    have hmem := List.mem_map_of_mem (fun acc => if acc.id == aid then n else acc) hx
    simpa [hxid] using hmem
  · simp

/-- C10.  The stored secret is the trimmed submitted password, and login
compares the stored secret against the trimmed submitted password: a
successful `register` leaves an account under the normalized email whose
password is `jsTrim password`; against any found account, `login` fails
with the credentials error exactly when the trimmed submission differs
from the stored secret; and two submissions equal after trimming are
fully interchangeable in `login`. -/
theorem password_trimmed_on_both_sides
    (st : AuthState) (now : Int) (clock : IsoClock) (cid : String)
    (fresh : RegisterFresh) (so : Except String Unit)
    (name email p q : String) (code : Option String) (a : StoredAccount) :
    ((¬(normalizeEmail email = "")) → ¬(p = "") → ¬((jsTrim p).length < 6) →
      ((st.accounts.find? (fun acc => acc.email == normalizeEmail email)).map
        (fun acc => acc.emailVerified)).getD false = false →
      sendVerification so = .ok () →
      ∃ acc ∈ (register st now fresh so name email p).2.accounts,
        acc.email = normalizeEmail email ∧ acc.password = jsTrim p) ∧
    (st.accounts.find? (fun acc => acc.email == normalizeEmail email) = some a →
      ((login st now clock cid email p code).1 = .error .invalidCredentials ↔
        ¬(jsTrim p = a.password))) ∧
    (jsTrim p = jsTrim q →
      login st now clock cid email p code = login st now clock cid email q code) := by
  refine ⟨?_, ?_, ?_⟩
  · intro hne hp1 hp2 hnoconf hsend
    simp only [register, beq_eq_false_iff_ne.mpr hne, beq_eq_false_iff_ne.mpr hp1,
      decide_eq_false hp2, Bool.or_self, Bool.false_eq_true, if_false, hnoconf,
      hsend]
    exact ⟨_, mem_upsert _ _ _, rfl, rfl⟩
  · intro hfind
    by_cases hpw : jsTrim p = a.password
    · have hpwb : (a.password == jsTrim p) = true := beq_iff_eq.mpr hpw.symm
      simp only [login, hfind, hpwb, Bool.not_true, Bool.false_eq_true, if_false]
      constructor
      · intro hcontra
        revert hcontra
        split <;> (try split) <;> (try split) <;> (try split) <;> simp
      · intro hcontra
        exact absurd hpw hcontra
    · have hpwb : (a.password == jsTrim p) = false :=
        beq_eq_false_iff_ne.mpr (fun h => hpw h.symm)
      simp [login, hfind, hpwb, hpw]
  · intro htrim
    simp only [login, htrim]

/-- Witness for C10 applied at concrete inputs: a registration stores
the trimmed password, a padded password logs in, and two paddings of the
same password produce identical calls. -/
theorem password_trimmed_on_both_sides_witness :
    (∃ acc ∈ (register emptyStore 0 baseFresh (.ok ()) "Ana" "ana@x.com"
          " secret1 ").2.accounts,
      acc.email = "ana@x.com" ∧ acc.password = "secret1") ∧
    ((login verifiedStore 0 baseClock "c" "ana@x.com" "  secret1" none).1
        = .error .invalidCredentials
      ↔ ¬(jsTrim "  secret1" = baseAccount.password)) ∧
    login verifiedStore 0 baseClock "c" "ana@x.com" " secret1" none
      = login verifiedStore 0 baseClock "c" "ana@x.com" "secret1  " none := by
  have h := password_trimmed_on_both_sides emptyStore
    0 baseClock "c" baseFresh (.ok ()) "Ana" "ana@x.com" " secret1 " "x" none
    baseAccount
  have h2 := password_trimmed_on_both_sides verifiedStore 0 baseClock "c"
    baseFresh (.ok ()) "Ana" "ana@x.com" "  secret1" "x" none baseAccount
  have h3 := password_trimmed_on_both_sides verifiedStore 0 baseClock "c"
    baseFresh (.ok ()) "Ana" "ana@x.com" " secret1" "secret1  " none baseAccount
  refine ⟨?_, ?_, h3.2.2 (by decide)⟩
  · have hr := h.1 (by decide) (by decide) (by decide) (by decide) rfl
    simpa using hr
  · exact h2.2.1 (by decide)


theorem mk_append (l1 l2 : List Char) :
    String.mk l1 ++ String.mk l2 = String.mk (l1 ++ l2) := rfl

theorem str_append_assoc (a b c : String) : a ++ b ++ c = a ++ (b ++ c) := by
  cases a with
  | mk la =>
    cases b with
    | mk lb =>
      cases c with
      | mk lc => simp [mk_append]

/-- Accumulator property of the decimal rendering loop. -/
theorem toDigitsCore_acc (fuel : Nat) : ∀ (n : Nat) (acc : List Char),
    Nat.toDigitsCore 10 fuel n acc = Nat.toDigitsCore 10 fuel n [] ++ acc := by
  induction fuel with
  | zero => intro n acc; simp [Nat.toDigitsCore]
  | succ g ih =>
    intro n acc
    by_cases h : n / 10 = 0
    · simp [Nat.toDigitsCore, h]
    · simp only [Nat.toDigitsCore, h, if_false]
      rw [ih (n / 10) (Nat.digitChar (n % 10) :: acc),
        ih (n / 10) [Nat.digitChar (n % 10)]]
      simp

/-- The rendering loop ignores the fuel once it exceeds the value. -/
theorem toDigitsCore_fuel (n : Nat) : ∀ f1 f2, n < f1 → n < f2 →
    Nat.toDigitsCore 10 f1 n [] = Nat.toDigitsCore 10 f2 n [] := by
  induction n using Nat.strong_induction_on with
  | _ n ih =>
    intro f1 f2 h1 h2
    match f1, f2 with
    | g1 + 1, g2 + 1 =>
      by_cases h : n / 10 = 0
      · simp [Nat.toDigitsCore, h]
      · simp only [Nat.toDigitsCore, h, if_false]
        rw [toDigitsCore_acc g1, toDigitsCore_acc g2]
        have hlt : n / 10 < n := Nat.div_lt_self (by omega) (by omega)
        rw [ih (n / 10) hlt g1 g2 (by omega) (by omega)]

/-- Decimal rendering of a single digit. -/
theorem repr_digit (d : Nat) (h : d < 10) :
    Nat.repr d = String.mk [Nat.digitChar d] := by
  interval_cases d <;> rfl

/-- Peeling the last decimal digit off the rendering. -/
theorem repr_peel (n : Nat) (h : 10 ≤ n) :
    Nat.repr n = Nat.repr (n / 10) ++ Nat.repr (n % 10) := by
  have hd : ¬(n / 10 = 0) := by omega
  show (Nat.toDigits 10 n).asString = _
  unfold Nat.toDigits
  have hstep : Nat.toDigitsCore 10 (n + 1) n []
      = Nat.toDigitsCore 10 n (n / 10) [Nat.digitChar (n % 10)] := by
    simp [Nat.toDigitsCore, hd]
  rw [hstep, toDigitsCore_acc]
  rw [toDigitsCore_fuel (n / 10) n (n / 10 + 1) (by omega) (by omega)]
  rw [repr_digit (n % 10) (Nat.mod_lt n (by omega))]
  show String.mk _ = (Nat.toDigits 10 (n / 10)).asString ++ _
  unfold Nat.toDigits
  show String.mk _ = String.mk _ ++ String.mk _
  rw [mk_append]

/-- Fixed width decimal rendering with leading zeros. -/
def padded : Nat → Nat → List Char
  | 0, _ => []
  | k + 1, c => padded k (c / 10) ++ [Nat.digitChar (c % 10)]

/-- Splitting the decimal rendering at a block boundary: the low `k`
digits render zero padded. -/
theorem repr_chunk (k : Nat) : ∀ (m c : Nat), 0 < m → c < 10 ^ k →
    Nat.repr (m * 10 ^ k + c) = Nat.repr m ++ String.mk (padded k c) := by
  induction k with
  | zero =>
    intro m c hm hc
    interval_cases c
    have hm0 : m * 10 ^ 0 + 0 = m := by simp
    rw [hm0]
    cases hr : Nat.repr m with
    | mk l =>
      show String.mk l = String.mk l ++ String.mk (padded 0 0)
      rw [mk_append]
      simp [padded]
  | succ k ih =>
    intro m c hm hc
    have hp : (10 : Nat) ^ (k + 1) = 10 ^ k * 10 := by ring
    have hbig : 10 ≤ m * 10 ^ (k + 1) + c := by
      have h1 : (10 : Nat) ≤ 10 ^ (k + 1) := by
        calc (10 : Nat) = 10 ^ 1 := by ring
        _ ≤ 10 ^ (k + 1) := Nat.pow_le_pow_right (by omega) (by omega)
      calc (10 : Nat) ≤ 10 ^ (k + 1) := h1
      _ ≤ m * 10 ^ (k + 1) := Nat.le_mul_of_pos_left _ hm
      _ ≤ m * 10 ^ (k + 1) + c := Nat.le_add_right _ _
    rw [repr_peel _ hbig]
    have hdiv : (m * 10 ^ (k + 1) + c) / 10 = m * 10 ^ k + c / 10 := by
      rw [hp, ← Nat.mul_assoc]
      omega
    have hmod : (m * 10 ^ (k + 1) + c) % 10 = c % 10 := by
      rw [hp, ← Nat.mul_assoc]
      omega
    rw [hdiv, hmod]
    have hcd : c / 10 < 10 ^ k := by
      rw [Nat.div_lt_iff_lt_mul (by omega)]
      rw [hp] at hc
      exact hc
    rw [ih m (c / 10) hm hcd]
    rw [repr_digit (c % 10) (Nat.mod_lt c (by omega))]
    rw [str_append_assoc, mk_append]
    rfl


theorem digitChar_not_whitespace (d : Nat) (h : d < 10) :
    (digitChar d).isWhitespace = false := by
  interval_cases d <;> decide

theorem digitChar_isDigit (d : Nat) (h : d < 10) :
    (digitChar d).isDigit = true := by
  interval_cases d <;> decide

/-- Whitespace stripping leaves a six digit rendering unchanged. -/
theorem stripSpaces_toSixDigitCode (n : Nat) :
    stripSpaces (toSixDigitCode n) = toSixDigitCode n := by
  have h1 := digitChar_not_whitespace (n / 100000 % 10) (Nat.mod_lt _ (by omega))
  have h2 := digitChar_not_whitespace (n / 10000 % 10) (Nat.mod_lt _ (by omega))
  have h3 := digitChar_not_whitespace (n / 1000 % 10) (Nat.mod_lt _ (by omega))
  have h4 := digitChar_not_whitespace (n / 100 % 10) (Nat.mod_lt _ (by omega))
  have h5 := digitChar_not_whitespace (n / 10 % 10) (Nat.mod_lt _ (by omega))
  have h6 := digitChar_not_whitespace (n % 10) (Nat.mod_lt _ (by omega))
  simp [stripSpaces, toSixDigitCode, List.filter, h1, h2, h3, h4, h5, h6]

/-- A six digit rendering passes the `^\d{6}$` test. -/
theorem isSixDigitCode_toSixDigitCode (n : Nat) :
    isSixDigitCode (toSixDigitCode n) = true := by
  have h1 := digitChar_isDigit (n / 100000 % 10) (Nat.mod_lt _ (by omega))
  have h2 := digitChar_isDigit (n / 10000 % 10) (Nat.mod_lt _ (by omega))
  have h3 := digitChar_isDigit (n / 1000 % 10) (Nat.mod_lt _ (by omega))
  have h4 := digitChar_isDigit (n / 100 % 10) (Nat.mod_lt _ (by omega))
  have h5 := digitChar_isDigit (n / 10 % 10) (Nat.mod_lt _ (by omega))
  have h6 := digitChar_isDigit (n % 10) (Nat.mod_lt _ (by omega))
  simp [isSixDigitCode, toSixDigitCode, String.length, h1, h2, h3, h4, h5, h6]

theorem stripSpaces_generate (secret : String) (t : Int) :
    stripSpaces (generateTwoFactorCode secret t) = generateTwoFactorCode secret t := by
  simp only [generateTwoFactorCode]
  exact stripSpaces_toSixDigitCode _

theorem isSixDigitCode_generate (secret : String) (t : Int) :
    isSixDigitCode (generateTwoFactorCode secret t) = true := by
  simp only [generateTwoFactorCode]
  exact isSixDigitCode_toSixDigitCode _

/-- Running the hash from an arbitrary starting state over a character
list. -/
def hashL (h : Nat) (l : List Char) : Nat := l.foldl hashStep h

theorem hashL_append (h : Nat) (a b : List Char) :
    hashL h (a ++ b) = hashL (hashL h a) b := List.foldl_append _ _ _ _

theorem data_append (a b : String) : (a ++ b).data = a.data ++ b.data := by
  cases a
  cases b
  rfl

theorem char_toNat_lt (c : Char) : c.toNat < 4294967296 := by
  have h : c.toNat = c.val.toNat := rfl
  have := c.val.toNat_lt
  omega

theorem hashStep_lt (h : Nat) (c : Char) : hashStep h c < 4294967296 := by
  have h1 : (h * 33) % 4294967296 < 4294967296 := Nat.mod_lt _ (by omega)
  have h2 := char_toNat_lt c
  have h3 : (4294967296:Nat) = 2 ^ 32 := rfl
  rw [hashStep]
  rw [h3] at h1 h2 ⊢
  exact Nat.xor_lt_two_pow h1 h2

theorem hashL_lt (l : List Char) : ∀ h : Nat, h < 4294967296 → hashL h l < 4294967296 := by
  induction l with
  | nil => intro h hh; exact hh
  | cons c l ih =>
    intro h hh
    exact ih (hashStep h c) (hashStep_lt h c)

theorem xor_mod64 (a c : Nat) : (a ^^^ c) % 64 = (a % 64) ^^^ (c % 64) := by
  have h64 : (64:Nat) = 2 ^ 6 := rfl
  rw [h64]
  apply Nat.eq_of_testBit_eq
  intro i
  simp only [Nat.testBit_mod_two_pow, Nat.testBit_xor]
  cases h : decide (i < 6) <;> simp

theorem hashStep_mod64 (h : Nat) (c : Char) :
    hashStep h c % 64 = hashStep (h % 64) c % 64 := by
  rw [hashStep, hashStep, xor_mod64, xor_mod64]
  have h1 : (h * 33) % 4294967296 % 64 = (h % 64) * 33 % 4294967296 % 64 := by
    omega
  rw [h1]

theorem hashL_mod64 (l : List Char) : ∀ h : Nat,
    hashL h l % 64 = hashL (h % 64) l % 64 := by
  induction l with
  | nil => intro h; simp [hashL]
  | cons c l ih =>
    intro h
    show hashL (hashStep h c) l % 64 = hashL (hashStep (h % 64) c) l % 64
    rw [ih (hashStep h c), ih (hashStep (h % 64) c), hashStep_mod64]

theorem xor64_lt (a b : Nat) (ha : a < 64) (hb : b < 64) : a ^^^ b < 64 := by
  have h : (64:Nat) = 2 ^ 6 := rfl
  rw [h] at ha hb ⊢
  exact Nat.xor_lt_two_pow ha hb

theorem testBit_64mul_add (X b : Nat) (hb : b < 64) (i : Nat) :
    (64 * X + b).testBit i = if i < 6 then b.testBit i else X.testBit (i - 6) := by
  by_cases hi : i < 6
  · rw [if_pos hi]
    rw [Nat.testBit_to_div_mod, Nat.testBit_to_div_mod]
    interval_cases i <;> norm_num <;> omega
  · rw [if_neg hi]
    obtain ⟨j, rfl⟩ : ∃ j, i = 6 + j := ⟨i - 6, by omega⟩
    have hj : 6 + j - 6 = j := by omega
    rw [hj, Nat.testBit_to_div_mod, Nat.testBit_to_div_mod]
    have hd : (64 * X + b) / 2 ^ (6 + j) = X / 2 ^ j := by
      rw [Nat.pow_add]
      have h64 : (2:Nat) ^ 6 = 64 := by norm_num
      rw [h64, ← Nat.div_div_eq_div_mul]
      have h1 : (64 * X + b) / 64 = X := by omega
      rw [h1]
    rw [hd]

theorem xor_low6 (X b c : Nat) (hb : b < 64) (hc : c < 64) :
    (64 * X + b) ^^^ c = 64 * X + (b ^^^ c) := by
  apply Nat.eq_of_testBit_eq
  intro i
  rw [Nat.testBit_xor, testBit_64mul_add X b hb i,
    testBit_64mul_add X (b ^^^ c) (xor64_lt b c hb hc) i]
  by_cases hi : i < 6
  · rw [if_pos hi, if_pos hi, Nat.testBit_xor]
  · rw [if_neg hi, if_neg hi]
    have hcb : c.testBit i = false := by
      apply Nat.testBit_lt_two_pow
      calc c < 64 := hc
      _ = 2 ^ 6 := rfl
      _ ≤ 2 ^ i := Nat.pow_le_pow_right (by omega) (by omega)
    rw [hcb, Bool.xor_false]

/-- Unfolding one hash step on a state split into its high and low six
bits, for a character below 64. -/
theorem hashStep_decompose (q s : Nat) (c : Char) (hs : s < 64) (hq : q < 67108864)
    (hc : c.toNat < 64) :
    hashStep (64 * q + s) c
      = 64 * ((33 * q + 33 * s / 64) % 67108864) + ((33 * s % 64) ^^^ c.toNat) := by
  rw [hashStep]
  have e1 : (64 * q + s) * 33 % 4294967296
      = 64 * ((33 * q + 33 * s / 64) % 67108864) + 33 * s % 64 := by
    omega
  rw [e1, xor_low6 _ _ _ (by omega) hc]

/-- For equal-length digit suffixes the 32-bit difference of the two hash
runs depends on the starting state only through its low six bits: shifting
both high parts by amounts with equal sums leaves the difference alone. -/
theorem hash_diff_shift (u : List Char) : ∀ (v : List Char), u.length = v.length →
    (∀ c ∈ u, c.toNat < 64) → (∀ c ∈ v, c.toNat < 64) →
    ∀ q1 q2 q3 q4 s t : Nat, q1 < 67108864 → q2 < 67108864 → q3 < 67108864 →
    q4 < 67108864 → s < 64 → t < 64 → (q1 + q4) % 67108864 = (q2 + q3) % 67108864 →
    (hashL (64 * q1 + s) u + 4294967296 - hashL (64 * q2 + t) v) % 4294967296
      = (hashL (64 * q3 + s) u + 4294967296 - hashL (64 * q4 + t) v) % 4294967296 := by
  induction u with
  | nil =>
    intro v hlen _ _ q1 q2 q3 q4 s t h1 h2 h3 h4 hs ht hinv
    cases v with
    | nil =>
      simp only [hashL, List.foldl_nil]
      omega
    | cons e v => simp at hlen
  | cons c u ih =>
    intro v hlen hu hv q1 q2 q3 q4 s t h1 h2 h3 h4 hs ht hinv
    cases v with
    | nil => simp at hlen
    | cons e v =>
      have hc : c.toNat < 64 := hu c (by simp)
      have he : e.toNat < 64 := hv e (by simp)
      have hu2 : ∀ x ∈ u, x.toNat < 64 := fun x hx => hu x (by simp [hx])
      have hv2 : ∀ x ∈ v, x.toNat < 64 := fun x hx => hv x (by simp [hx])
      have hlen2 : u.length = v.length := by simpa using hlen
      show (hashL (hashStep (64 * q1 + s) c) u + 4294967296
          - hashL (hashStep (64 * q2 + t) e) v) % 4294967296
        = (hashL (hashStep (64 * q3 + s) c) u + 4294967296
          - hashL (hashStep (64 * q4 + t) e) v) % 4294967296
      rw [hashStep_decompose q1 s c hs h1 hc, hashStep_decompose q2 t e ht h2 he,
        hashStep_decompose q3 s c hs h3 hc, hashStep_decompose q4 t e ht h4 he]
      apply ih v hlen2 hu2 hv2
      · exact Nat.mod_lt _ (by omega)
      · exact Nat.mod_lt _ (by omega)
      · exact Nat.mod_lt _ (by omega)
      · exact Nat.mod_lt _ (by omega)
      · exact xor64_lt _ _ (by omega) hc
      · exact xor64_lt _ _ (by omega) he
      · omega

/-- Hash facts needed of a same-length suffix pair: over all 64 low-bit
states the wrapped hash difference avoids both residues that a collision
of the six-digit codes would force. -/
def deltaFacts (u v : List Char) : Prop :=
  ∀ s, s < 64 →
    ((hashL s u + 4294967296 - hashL s v) % 4294967296 % 1000000 ≠ 0
      ∧ (hashL s u + 4294967296 - hashL s v) % 4294967296 % 1000000 ≠ 967296)

/-- Hash facts needed of an arbitrary suffix pair: over all 64 low-bit
states the two hashes differ already in their low six bits. -/
def lowFacts (u v : List Char) : Prop :=
  ∀ s, s < 64 → hashL s u % 64 ≠ hashL s v % 64

theorem no_collision_of_deltaFacts (u v : List Char) (hlen : u.length = v.length)
    (hu : ∀ c ∈ u, c.toNat < 64) (hv : ∀ c ∈ v, c.toNat < 64)
    (hchk : deltaFacts u v) (H : Nat) (hH : H < 4294967296) :
    hashL H u % 1000000 ≠ hashL H v % 1000000 := by
  intro heq
  have hsplit : H = 64 * (H / 64) + H % 64 := by omega
  have hshift := hash_diff_shift u v hlen hu hv (H / 64) (H / 64) 0 0 (H % 64) (H % 64)
    (by omega) (by omega) (by omega) (by omega) (by omega) (by omega) (by omega)
  rw [← hsplit] at hshift
  have hz : 64 * 0 + H % 64 = H % 64 := by omega
  rw [hz] at hshift
  have ha := hashL_lt u H hH
  have hb := hashL_lt v H hH
  have hforce : (hashL H u + 4294967296 - hashL H v) % 4294967296 % 1000000 = 0
      ∨ (hashL H u + 4294967296 - hashL H v) % 4294967296 % 1000000 = 967296 := by
    by_cases hab : hashL H v ≤ hashL H u
    · have h1 : (hashL H u + 4294967296 - hashL H v) % 4294967296
          = hashL H u - hashL H v := by omega
      rw [h1]
      left
      omega
    · have h1 : (hashL H u + 4294967296 - hashL H v) % 4294967296
          = hashL H u + 4294967296 - hashL H v := by omega
      rw [h1]
      right
      omega
  have hall := hchk (H % 64) (by omega)
  rw [hshift] at hforce
  rcases hforce with h0 | h9
  · exact hall.1 h0
  · exact hall.2 h9

theorem no_collision_of_lowFacts (u v : List Char)
    (hchk : lowFacts u v) (H : Nat) :
    hashL H u % 1000000 ≠ hashL H v % 1000000 := by
  intro heq
  have h64 : hashL H u % 64 = hashL H v % 64 := by omega
  rw [hashL_mod64 u H, hashL_mod64 v H] at h64
  exact hchk (H % 64) (by omega) h64

/-- Suffix family with a leading digit, a run of nines, and a final
digit, as produced by a carry out of the last decimal digit. -/
def famU (y r c : Nat) : List Char :=
  Nat.digitChar y :: (List.replicate r '9' ++ [Nat.digitChar c])

/-- Suffix family with a leading digit, a run of zeros, and a final
digit, the post-carry counterpart of `famU`. -/
def famV (y r c : Nat) : List Char :=
  Nat.digitChar y :: (List.replicate r '0' ++ [Nat.digitChar c])

/-- Whole-number family of nines followed by a final digit. -/
def crossU (r c : Nat) : List Char := List.replicate r '9' ++ [Nat.digitChar c]

/-- Whole-number family of a one, a run of zeros, and a final digit. -/
def crossV (r c : Nat) : List Char := '1' :: (List.replicate r '0' ++ [Nat.digitChar c])

def charStep (h c : Nat) : Nat := (h * 33) % 4294967296 ^^^ c

def nineStep (h : Nat) : Nat := (h * 33) % 4294967296 ^^^ 57

def zeroStep (h : Nat) : Nat := (h * 33) % 4294967296 ^^^ 48

def iter9 : Nat → Nat → Nat
  | h, 0 => h
  | h, r + 1 => iter9 (nineStep h) r

def iter0 : Nat → Nat → Nat
  | h, 0 => h
  | h, r + 1 => iter0 (zeroStep h) r

/-- Incremental check of the carry families at one starting state: `a`
and `b` walk along the nine run and the zero run, and each stop checks
the wrapped difference after the final digits. -/
def okCarryR (cu cv : Nat) : Nat → Nat → Nat → Bool
  | _, _, 0 => true
  | a, b, k + 1 =>
      let d := (charStep a cu + 4294967296 - charStep b cv) % 4294967296
      !(d % 1000000 == 0) && !(d % 1000000 == 967296)
        && okCarryR cu cv (nineStep a) (zeroStep b) k

def okCarryS (y cu cv : Nat) : Nat → Bool
  | 0 => true
  | s + 1 =>
      okCarryR cu cv (charStep s (48 + y)) (charStep s (48 + (y + 1))) 12
        && okCarryS y cu cv s

def carrySweep2 : Bool :=
  (List.range 3).all fun d0 =>
    (List.range 10).all fun c =>
      (List.range 9).all fun y =>
        if 10 ≤ c + (d0 + 1) then okCarryS y (48 + c) (48 + (c + (d0 + 1) - 10)) 64
        else true

def okCrossR (cu cv : Nat) : Nat → Nat → Nat → Bool
  | _, _, 0 => true
  | a, b, k + 1 =>
      (charStep a cu % 64 != charStep b cv % 64)
        && okCrossR cu cv (nineStep a) (zeroStep b) k

def okCrossS (cu cv : Nat) : Nat → Bool
  | 0 => true
  | s + 1 => okCrossR cu cv s (charStep s 49) 12 && okCrossS cu cv s

def crossSweep2 : Bool :=
  (List.range 3).all fun d0 =>
    (List.range 10).all fun c =>
      if 10 ≤ c + (d0 + 1) then okCrossS (48 + c) (48 + (c + (d0 + 1) - 10)) 64
      else true

def okSingleS (cu cv : Nat) : Nat → Bool
  | 0 => true
  | s + 1 =>
      let d := (charStep s cu + 4294967296 - charStep s cv) % 4294967296
      (!(d % 1000000 == 0) && !(d % 1000000 == 967296)) && okSingleS cu cv s

def singleSweep2 : Bool :=
  (List.range 3).all fun d0 =>
    (List.range 10).all fun c =>
      if c + (d0 + 1) ≤ 9 then okSingleS (48 + c) (48 + (c + (d0 + 1))) 64
      else true

set_option maxHeartbeats 1000000 in
theorem singleSweep2_true : singleSweep2 = true := by decide

set_option maxHeartbeats 1000000 in
theorem crossSweep2_true : crossSweep2 = true := by decide

set_option maxHeartbeats 2000000 in
theorem carrySweep2_true : carrySweep2 = true := by decide

theorem okCarryR_spec (cu cv : Nat) : ∀ k a b, okCarryR cu cv a b k = true → ∀ r, r < k →
    ((charStep (iter9 a r) cu + 4294967296 - charStep (iter0 b r) cv)
        % 4294967296 % 1000000 ≠ 0
      ∧ (charStep (iter9 a r) cu + 4294967296 - charStep (iter0 b r) cv)
        % 4294967296 % 1000000 ≠ 967296) := by
  intro k
  induction k with
  | zero => intro a b h r hr; omega
  | succ k ih =>
    intro a b h r hr
    simp only [okCarryR, Bool.and_eq_true, Bool.not_eq_true', beq_eq_false_iff_ne] at h
    obtain ⟨⟨h1, h2⟩, hrest⟩ := h
    cases r with
    | zero => exact ⟨h1, h2⟩
    | succ r => exact ih (nineStep a) (zeroStep b) hrest r (by omega)

theorem okCarryS_spec (y cu cv : Nat) : ∀ k, okCarryS y cu cv k = true → ∀ s, s < k →
    okCarryR cu cv (charStep s (48 + y)) (charStep s (48 + (y + 1))) 12 = true := by
  intro k
  induction k with
  | zero => intro h s hs; omega
  | succ k ih =>
    intro h s hs
    simp only [okCarryS, Bool.and_eq_true] at h
    obtain ⟨hhead, hrest⟩ := h
    rcases Nat.lt_succ_iff_lt_or_eq.mp hs with h1 | h1
    · exact ih hrest s h1
    · subst h1
      exact hhead

theorem okCrossR_spec (cu cv : Nat) : ∀ k a b, okCrossR cu cv a b k = true → ∀ r, r < k →
    charStep (iter9 a r) cu % 64 ≠ charStep (iter0 b r) cv % 64 := by
  intro k
  induction k with
  | zero => intro a b h r hr; omega
  | succ k ih =>
    intro a b h r hr
    simp only [okCrossR, Bool.and_eq_true, bne_iff_ne, ne_eq] at h
    obtain ⟨h1, hrest⟩ := h
    cases r with
    | zero => exact h1
    | succ r => exact ih (nineStep a) (zeroStep b) hrest r (by omega)

theorem okCrossS_spec (cu cv : Nat) : ∀ k, okCrossS cu cv k = true → ∀ s, s < k →
    okCrossR cu cv s (charStep s 49) 12 = true := by
  intro k
  induction k with
  | zero => intro h s hs; omega
  | succ k ih =>
    intro h s hs
    simp only [okCrossS, Bool.and_eq_true] at h
    obtain ⟨hhead, hrest⟩ := h
    rcases Nat.lt_succ_iff_lt_or_eq.mp hs with h1 | h1
    · exact ih hrest s h1
    · subst h1
      exact hhead

theorem okSingleS_spec (cu cv : Nat) : ∀ k, okSingleS cu cv k = true → ∀ s, s < k →
    ((charStep s cu + 4294967296 - charStep s cv) % 4294967296 % 1000000 ≠ 0
      ∧ (charStep s cu + 4294967296 - charStep s cv) % 4294967296 % 1000000 ≠ 967296) := by
  intro k
  induction k with
  | zero => intro h s hs; omega
  | succ k ih =>
    intro h s hs
    simp only [okSingleS, Bool.and_eq_true, Bool.not_eq_true', beq_eq_false_iff_ne] at h
    obtain ⟨⟨h1, h2⟩, hrest⟩ := h
    rcases Nat.lt_succ_iff_lt_or_eq.mp hs with hlt | heq
    · exact ih hrest s hlt
    · subst heq
      exact ⟨h1, h2⟩

theorem carry_sweep_entry (d c y : Nat) (hd1 : 1 ≤ d) (hd3 : d ≤ 3) (hc : c ≤ 9)
    (hcd : 10 ≤ c + d) (hy : y ≤ 8) :
    okCarryS y (48 + c) (48 + (c + d - 10)) 64 = true := by
  have h := carrySweep2_true
  rw [carrySweep2] at h
  simp only [List.all_eq_true, List.mem_range] at h
  have h2 := h (d - 1) (by omega) c (by omega) y (by omega)
  have hd4 : d - 1 + 1 = d := by omega
  rw [hd4] at h2
  rw [if_pos hcd] at h2
  exact h2

theorem cross_sweep_entry (d c : Nat) (hd1 : 1 ≤ d) (hd3 : d ≤ 3) (hc : c ≤ 9)
    (hcd : 10 ≤ c + d) :
    okCrossS (48 + c) (48 + (c + d - 10)) 64 = true := by
  have h := crossSweep2_true
  rw [crossSweep2] at h
  simp only [List.all_eq_true, List.mem_range] at h
  have h2 := h (d - 1) (by omega) c (by omega)
  have hd4 : d - 1 + 1 = d := by omega
  rw [hd4] at h2
  rw [if_pos hcd] at h2
  exact h2

theorem single_sweep_entry (d c : Nat) (hd1 : 1 ≤ d) (hd3 : d ≤ 3)
    (hcd : c + d ≤ 9) :
    okSingleS (48 + c) (48 + (c + d)) 64 = true := by
  have h := singleSweep2_true
  rw [singleSweep2] at h
  simp only [List.all_eq_true, List.mem_range] at h
  have h2 := h (d - 1) (by omega) c (by omega)
  have hd4 : d - 1 + 1 = d := by omega
  rw [hd4] at h2
  rw [if_pos hcd] at h2
  exact h2

theorem digitChar_toNat (y : Nat) (hy : y < 10) : (Nat.digitChar y).toNat = 48 + y := by
  interval_cases y <;> decide

theorem hashStep_digit (h y : Nat) (hy : y < 10) :
    hashStep h (Nat.digitChar y) = charStep h (48 + y) := by
  rw [hashStep, charStep, digitChar_toNat y hy]

theorem hashStep_nine (h : Nat) : hashStep h '9' = nineStep h := rfl

theorem hashStep_one (h : Nat) : hashStep h '1' = charStep h 49 := rfl

theorem hashL_rep9 (r : Nat) : ∀ h, hashL h (List.replicate r '9') = iter9 h r := by
  induction r with
  | zero => intro h; rfl
  | succ r ih =>
    intro h
    show hashL (hashStep h '9') (List.replicate r '9') = iter9 (nineStep h) r
    rw [hashStep_nine]
    exact ih _

theorem hashL_rep0 (r : Nat) : ∀ h, hashL h (List.replicate r '0') = iter0 h r := by
  induction r with
  | zero => intro h; rfl
  | succ r ih =>
    intro h
    show hashL (hashStep h '0') (List.replicate r '0') = iter0 (zeroStep h) r
    rw [show hashStep h '0' = zeroStep h from rfl]
    exact ih _

theorem hashL_famU (y r c : Nat) (hy : y < 10) (hc : c < 10) (h : Nat) :
    hashL h (famU y r c) = charStep (iter9 (charStep h (48 + y)) r) (48 + c) := by
  show hashL (hashStep h (Nat.digitChar y)) (List.replicate r '9' ++ [Nat.digitChar c]) = _
  rw [hashStep_digit h y hy, hashL_append, hashL_rep9]
  show hashStep (iter9 (charStep h (48 + y)) r) (Nat.digitChar c) = _
  rw [hashStep_digit _ c hc]

theorem hashL_famV (y r c : Nat) (hy : y < 10) (hc : c < 10) (h : Nat) :
    hashL h (famV y r c) = charStep (iter0 (charStep h (48 + y)) r) (48 + c) := by
  show hashL (hashStep h (Nat.digitChar y)) (List.replicate r '0' ++ [Nat.digitChar c]) = _
  rw [hashStep_digit h y hy, hashL_append, hashL_rep0]
  show hashStep (iter0 (charStep h (48 + y)) r) (Nat.digitChar c) = _
  rw [hashStep_digit _ c hc]

theorem hashL_crossU (r c : Nat) (hc : c < 10) (h : Nat) :
    hashL h (crossU r c) = charStep (iter9 h r) (48 + c) := by
  show hashL h (List.replicate r '9' ++ [Nat.digitChar c]) = _
  rw [hashL_append, hashL_rep9]
  show hashStep (iter9 h r) (Nat.digitChar c) = _
  rw [hashStep_digit _ c hc]

theorem hashL_crossV (r c : Nat) (hc : c < 10) (h : Nat) :
    hashL h (crossV r c) = charStep (iter0 (charStep h 49) r) (48 + c) := by
  show hashL (hashStep h '1') (List.replicate r '0' ++ [Nat.digitChar c]) = _
  rw [hashStep_one, hashL_append, hashL_rep0]
  show hashStep (iter0 (charStep h 49) r) (Nat.digitChar c) = _
  rw [hashStep_digit _ c hc]

theorem famU_deltaFacts (d c y r : Nat) (hd1 : 1 ≤ d) (hd3 : d ≤ 3) (hc : c ≤ 9)
    (hcd : 10 ≤ c + d) (hy : y ≤ 8) (hr : r ≤ 11) :
    deltaFacts (famU y r c) (famV (y + 1) r (c + d - 10)) := by
  intro s hs
  have hok := carry_sweep_entry d c y hd1 hd3 hc hcd hy
  have hR := okCarryS_spec y (48 + c) (48 + (c + d - 10)) 64 hok s hs
  have hfact := okCarryR_spec (48 + c) (48 + (c + d - 10)) 12 _ _ hR r (by omega)
  rw [hashL_famU y r c (by omega) (by omega) s,
    hashL_famV (y + 1) r (c + d - 10) (by omega) (by omega) s]
  exact hfact

theorem crossU_lowFacts (d c r : Nat) (hd1 : 1 ≤ d) (hd3 : d ≤ 3) (hc : c ≤ 9)
    (hcd : 10 ≤ c + d) (hr : r ≤ 11) :
    lowFacts (crossU r c) (crossV r (c + d - 10)) := by
  intro s hs
  have hok := cross_sweep_entry d c hd1 hd3 hc hcd
  have hR := okCrossS_spec (48 + c) (48 + (c + d - 10)) 64 hok s hs
  have hfact := okCrossR_spec (48 + c) (48 + (c + d - 10)) 12 _ _ hR r (by omega)
  rw [hashL_crossU r c (by omega) s, hashL_crossV r (c + d - 10) (by omega) s]
  exact hfact

theorem single_deltaFacts (d c : Nat) (hd1 : 1 ≤ d) (hd3 : d ≤ 3)
    (hcd : c + d ≤ 9) :
    deltaFacts (crossU 0 c) (crossU 0 (c + d)) := by
  intro s hs
  have hok := single_sweep_entry d c hd1 hd3 hcd
  have hfact := okSingleS_spec (48 + c) (48 + (c + d)) 64 hok s hs
  rw [hashL_crossU 0 c (by omega) s, hashL_crossU 0 (c + d) (by omega) s]
  exact hfact

theorem digitChar_toNat_lt (d : Nat) (hd : d < 10) : (Nat.digitChar d).toNat < 64 := by
  interval_cases d <;> decide

theorem famU_bound (y r c : Nat) (hy : y < 10) (hc : c < 10) :
    ∀ ch ∈ famU y r c, ch.toNat < 64 := by
  intro ch hch
  simp only [famU, List.mem_cons, List.mem_append, List.mem_replicate,
    List.mem_singleton] at hch
  rcases hch with h | ⟨_, h⟩ | h | h
  · rw [h]; exact digitChar_toNat_lt y hy
  · rw [h]; decide
  · rw [h]; exact digitChar_toNat_lt c hc
  · simp at h

theorem famV_bound (y r c : Nat) (hy : y < 10) (hc : c < 10) :
    ∀ ch ∈ famV y r c, ch.toNat < 64 := by
  intro ch hch
  simp only [famV, List.mem_cons, List.mem_append, List.mem_replicate,
    List.mem_singleton] at hch
  rcases hch with h | ⟨_, h⟩ | h | h
  · rw [h]; exact digitChar_toNat_lt y hy
  · rw [h]; decide
  · rw [h]; exact digitChar_toNat_lt c hc
  · simp at h

theorem crossU_bound (r c : Nat) (hc : c < 10) :
    ∀ ch ∈ crossU r c, ch.toNat < 64 := by
  intro ch hch
  simp only [crossU, List.mem_append, List.mem_replicate, List.mem_singleton] at hch
  rcases hch with ⟨_, h⟩ | h
  · rw [h]; decide
  · rw [h]; exact digitChar_toNat_lt c hc

theorem crossV_bound (r c : Nat) (hc : c < 10) :
    ∀ ch ∈ crossV r c, ch.toNat < 64 := by
  intro ch hch
  simp only [crossV, List.mem_cons, List.mem_append, List.mem_replicate,
    List.mem_singleton] at hch
  rcases hch with h | ⟨_, h⟩ | h | h
  · rw [h]; decide
  · rw [h]; decide
  · rw [h]; exact digitChar_toNat_lt c hc
  · simp at h

/-- Count of trailing decimal nines. -/
def trailing9 (m : Nat) : Nat :=
  if h : m % 10 = 9 then trailing9 (m / 10) + 1 else 0
decreasing_by
  exact Nat.div_lt_self (by omega) (by omega)

theorem mod_mul_ten (a b X : Nat) (hb : b < 10) (hX : 1 ≤ X) :
    (10 * a + b) % (X * 10) = 10 * (a % X) + b := by
  have ha : a = X * (a / X) + a % X := (Nat.div_add_mod a X).symm
  have hlt : a % X < X := Nat.mod_lt _ (by omega)
  have he : 10 * a + b = 10 * (a % X) + b + (a / X) * (X * 10) := by
    conv_lhs => rw [ha]
    ring
  rw [he, Nat.add_mul_mod_self_right, Nat.mod_eq_of_lt (by omega)]

theorem trailing9_spec (m : Nat) :
    m % 10 ^ (trailing9 m) = 10 ^ (trailing9 m) - 1
      ∧ (m / 10 ^ (trailing9 m)) % 10 ≠ 9 := by
  induction m using Nat.strong_induction_on with
  | _ m ih =>
    rw [trailing9]
    by_cases h : m % 10 = 9
    · rw [dif_pos h]
      have hmlt : m / 10 < m := Nat.div_lt_self (by omega) (by omega)
      obtain ⟨ih1, ih2⟩ := ih (m / 10) hmlt
      set r9 := trailing9 (m / 10) with hr9
      have hX : 1 ≤ 10 ^ r9 := Nat.one_le_pow _ _ (by omega)
      constructor
      · rw [pow_succ]
        have hm : m = 10 * (m / 10) + 9 := by omega
        conv_lhs => rw [hm]
        rw [mod_mul_ten _ _ _ (by omega) hX, ih1]
        omega
      · rw [pow_succ, Nat.mul_comm, ← Nat.div_div_eq_div_mul]
        exact ih2
    · rw [dif_neg h]
      constructor
      · simp [Nat.mod_one]
      · simpa using h

theorem padded_zero (r : Nat) : padded r 0 = List.replicate r '0' := by
  induction r with
  | zero => rfl
  | succ r ih =>
    show padded r (0 / 10) ++ [Nat.digitChar (0 % 10)] = _
    rw [Nat.zero_div, ih, List.replicate_succ']
    rfl

theorem padded_small (r c : Nat) (hc : c < 10) :
    padded (r + 1) c = List.replicate r '0' ++ [Nat.digitChar c] := by
  show padded r (c / 10) ++ [Nat.digitChar (c % 10)] = _
  rw [Nat.div_eq_of_lt hc, Nat.mod_eq_of_lt hc, padded_zero]

theorem padded_nines_full (r : Nat) : padded r (10 ^ r - 1) = List.replicate r '9' := by
  induction r with
  | zero => rfl
  | succ r ih =>
    have hX : 1 ≤ 10 ^ r := Nat.one_le_pow _ _ (by omega)
    have hp : (10:Nat) ^ (r + 1) = 10 ^ r * 10 := pow_succ 10 r
    show padded r ((10 ^ (r+1) - 1) / 10) ++ [Nat.digitChar ((10 ^ (r+1) - 1) % 10)] = _
    have h1 : (10 ^ (r+1) - 1) / 10 = 10 ^ r - 1 := by rw [hp]; omega
    have h2 : (10 ^ (r+1) - 1) % 10 = 9 := by rw [hp]; omega
    rw [h1, h2, ih, List.replicate_succ']
    rfl

theorem padded_lead_nines (r y : Nat) (hy : y < 10) :
    padded (r + 1) (y * 10 ^ r + (10 ^ r - 1))
      = Nat.digitChar y :: List.replicate r '9' := by
  induction r with
  | zero =>
    show padded 1 (y * 1 + 0) = _
    have h : y * 1 + 0 = y := by omega
    rw [h]
    show padded 0 (y / 10) ++ [Nat.digitChar (y % 10)] = _
    rw [Nat.mod_eq_of_lt hy]
    rfl
  | succ r ih =>
    have hX : 1 ≤ 10 ^ r := Nat.one_le_pow _ _ (by omega)
    have hp : (10:Nat) ^ (r + 1) = 10 ^ r * 10 := pow_succ 10 r
    set C := y * 10 ^ (r + 1) + (10 ^ (r + 1) - 1) with hC
    have hk : y * 10 ^ (r + 1) = y * 10 ^ r * 10 := by rw [hp]; ring
    have h1 : C / 10 = y * 10 ^ r + (10 ^ r - 1) := by
      rw [hC, hk, hp]
      generalize y * 10 ^ r = k
      omega
    have h2 : C % 10 = 9 := by
      rw [hC, hk, hp]
      generalize y * 10 ^ r = k
      omega
    show padded (r + 1) (C / 10) ++ [Nat.digitChar (C % 10)] = _
    rw [h1, h2, ih, List.replicate_succ']
    rfl

theorem padded_lead_zeros (r y : Nat) (hy : y < 10) :
    padded (r + 1) (y * 10 ^ r) = Nat.digitChar y :: List.replicate r '0' := by
  induction r with
  | zero =>
    show padded 1 (y * 1) = _
    have h : y * 1 = y := by omega
    rw [h]
    show padded 0 (y / 10) ++ [Nat.digitChar (y % 10)] = _
    rw [Nat.mod_eq_of_lt hy]
    rfl
  | succ r ih =>
    have hp : (10:Nat) ^ (r + 1) = 10 ^ r * 10 := pow_succ 10 r
    have hk : y * 10 ^ (r + 1) = y * 10 ^ r * 10 := by rw [hp]; ring
    have h1 : y * 10 ^ (r + 1) / 10 = y * 10 ^ r := by
      rw [hk]
      generalize y * 10 ^ r = k
      omega
    have h2 : y * 10 ^ (r + 1) % 10 = 0 := by
      rw [hk]
      generalize y * 10 ^ r = k
      omega
    show padded (r + 1) (y * 10 ^ (r+1) / 10) ++ [Nat.digitChar (y * 10 ^ (r+1) % 10)] = _
    rw [h1, h2, ih, List.replicate_succ']
    rfl

theorem padded_tail_nines (r c : Nat) (hc : c < 10) :
    padded (r + 1) ((10 ^ r - 1) * 10 + c)
      = List.replicate r '9' ++ [Nat.digitChar c] := by
  have hX : 1 ≤ 10 ^ r := Nat.one_le_pow _ _ (by omega)
  have h1 : ((10 ^ r - 1) * 10 + c) / 10 = 10 ^ r - 1 := by
    generalize 10 ^ r = X at *
    omega
  have h2 : ((10 ^ r - 1) * 10 + c) % 10 = c := by
    generalize 10 ^ r = X at *
    omega
  show padded r _ ++ [Nat.digitChar _] = _
  rw [h1, h2, padded_nines_full]

theorem padded_famU (r y c : Nat) (hy : y < 10) (hc : c < 10) :
    padded (r + 2) (y * 10 ^ (r + 1) + (10 ^ (r + 1) - 10) + c)
      = Nat.digitChar y :: (List.replicate r '9' ++ [Nat.digitChar c]) := by
  have hX : 1 ≤ 10 ^ r := Nat.one_le_pow _ _ (by omega)
  have hp : (10:Nat) ^ (r + 1) = 10 ^ r * 10 := pow_succ 10 r
  set C := y * 10 ^ (r + 1) + (10 ^ (r + 1) - 10) + c with hC
  have hk : y * 10 ^ (r + 1) = y * 10 ^ r * 10 := by rw [hp]; ring
  have h1 : C / 10 = y * 10 ^ r + (10 ^ r - 1) := by
    rw [hC, hk, hp]
    generalize y * 10 ^ r = k
    omega
  have h2 : C % 10 = c := by
    rw [hC, hk, hp]
    generalize y * 10 ^ r = k
    omega
  show padded (r + 1) (C / 10) ++ [Nat.digitChar (C % 10)] = _
  rw [h1, h2, padded_lead_nines r y hy]
  rfl

theorem padded_famV (r y c : Nat) (hy : y < 10) (hc : c < 10) :
    padded (r + 2) (y * 10 ^ (r + 1) + c)
      = Nat.digitChar y :: (List.replicate r '0' ++ [Nat.digitChar c]) := by
  have hp : (10:Nat) ^ (r + 1) = 10 ^ r * 10 := pow_succ 10 r
  set C := y * 10 ^ (r + 1) + c with hC
  have hk : y * 10 ^ (r + 1) = y * 10 ^ r * 10 := by rw [hp]; ring
  have h1 : C / 10 = y * 10 ^ r := by
    rw [hC, hk]
    generalize y * 10 ^ r = k
    omega
  have h2 : C % 10 = c := by
    rw [hC, hk]
    generalize y * 10 ^ r = k
    omega
  show padded (r + 1) (C / 10) ++ [Nat.digitChar (C % 10)] = _
  rw [h1, h2, padded_lead_zeros r y hy]
  rfl

/-- Decomposition of a number into its trailing-nine block: `m` splits as
a high part, one digit `y` below 9, and `r` trailing nines. -/
theorem exists_digit_decomp (m : Nat) :
    ∃ r y M : Nat, y ≤ 8 ∧ 10 ^ r ≤ m + 1
      ∧ m = (10 * M + y) * 10 ^ r + (10 ^ r - 1) := by
  obtain ⟨hT1, hT2⟩ := trailing9_spec m
  refine ⟨trailing9 m, (m / 10 ^ trailing9 m) % 10, m / 10 ^ (trailing9 m + 1), ?_, ?_, ?_⟩
  · omega
  · have hle := Nat.mod_le m (10 ^ trailing9 m)
    have hX : 1 ≤ 10 ^ trailing9 m := Nat.one_le_pow _ _ (by omega)
    omega
  · have hdd : m / 10 ^ trailing9 m / 10 = m / 10 ^ (trailing9 m + 1) := by
      rw [Nat.div_div_eq_div_mul, ← pow_succ]
    have h1 := Nat.div_add_mod m (10 ^ trailing9 m)
    have h2 := Nat.div_add_mod (m / 10 ^ trailing9 m) 10
    rw [hdd] at h2
    calc m = 10 ^ trailing9 m * (m / 10 ^ trailing9 m) + m % 10 ^ trailing9 m := h1.symm
    _ = 10 ^ trailing9 m * (10 * (m / 10 ^ (trailing9 m + 1))
          + (m / 10 ^ trailing9 m) % 10) + (10 ^ trailing9 m - 1) := by rw [h2, hT1]
    _ = (10 * (m / 10 ^ (trailing9 m + 1)) + (m / 10 ^ trailing9 m) % 10)
          * 10 ^ trailing9 m + (10 ^ trailing9 m - 1) := by ring_nf

/-- Characterization of a usable suffix pair: digit characters on both
sides, and one of the two sweep tests passes. -/
def goodPair (u v : List Char) : Prop :=
  (∀ c ∈ u, c.toNat < 64) ∧ (∀ c ∈ v, c.toNat < 64) ∧
    ((u.length = v.length ∧ deltaFacts u v) ∨ lowFacts u v)

/-- The decimal renderings of `n` and `n + d` (`d` between 1 and 3, both
below 10^12) share a common prefix and end in one of the checked suffix
families. -/
theorem repr_decomp (d n : Nat) (hd1 : 1 ≤ d) (hd3 : d ≤ 3) (hn : n + d ≤ 10 ^ 12) :
    ∃ P u v : List Char,
      (Nat.repr n).data = P ++ u ∧ (Nat.repr (n + d)).data = P ++ v ∧ goodPair u v := by
  have hten : (10:Nat) ^ 1 = 10 := by norm_num
  by_cases hcar : n % 10 + d ≤ 9
  · -- no carry in the last digit
    rcases Nat.eq_zero_or_pos (n / 10) with hm0 | hmpos
    · -- single digit numbers
      have hn9 : n < 10 := by omega
      refine ⟨[], crossU 0 n, crossU 0 (n + d), ?_, ?_, ?_, ?_, ?_⟩
      · rw [repr_digit n (by omega)]
        rfl
      · rw [repr_digit (n + d) (by omega)]
        rfl
      · exact crossU_bound 0 n (by omega)
      · exact crossU_bound 0 (n + d) (by omega)
      · exact Or.inl ⟨rfl, single_deltaFacts d n hd1 hd3 (by omega)⟩
    · -- at least two digits, last digit just increments
      have heq1 : n = n / 10 * 10 ^ 1 + n % 10 := by rw [hten]; omega
      have heq2 : n + d = n / 10 * 10 ^ 1 + (n % 10 + d) := by rw [hten]; omega
      have r1 : Nat.repr n = Nat.repr (n / 10) ++ String.mk (padded 1 (n % 10)) := by
        conv_lhs => rw [heq1]
        exact repr_chunk 1 (n / 10) (n % 10) hmpos (by rw [hten]; omega)
      have r2 : Nat.repr (n + d)
          = Nat.repr (n / 10) ++ String.mk (padded 1 (n % 10 + d)) := by
        conv_lhs => rw [heq2]
        exact repr_chunk 1 (n / 10) (n % 10 + d) hmpos (by rw [hten]; omega)
      refine ⟨(Nat.repr (n / 10)).data, crossU 0 (n % 10), crossU 0 (n % 10 + d),
        ?_, ?_, ?_, ?_, ?_⟩
      · rw [r1, data_append]
        congr 1
        rw [show (1:Nat) = 0 + 1 from rfl, padded_small 0 (n % 10) (by omega)]
        rfl
      · rw [r2, data_append]
        congr 1
        rw [show (1:Nat) = 0 + 1 from rfl, padded_small 0 (n % 10 + d) (by omega)]
        rfl
      · exact crossU_bound 0 (n % 10) (by omega)
      · exact crossU_bound 0 (n % 10 + d) (by omega)
      · exact Or.inl ⟨rfl, single_deltaFacts d (n % 10) hd1 hd3 (by omega)⟩
  · -- carry out of the last digit
    have hcd10 : 10 ≤ n % 10 + d := by omega
    have hc9 : n % 10 ≤ 9 := by omega
    obtain ⟨r, y, M, hy8, hrm, hmdec⟩ := exists_digit_decomp (n / 10)
    have hX : 1 ≤ 10 ^ r := Nat.one_le_pow _ _ (by omega)
    have hp1 : (10:Nat) ^ (r + 1) = 10 ^ r * 10 := pow_succ 10 r
    have hp2 : (10:Nat) ^ (r + 2) = 10 ^ (r + 1) * 10 := pow_succ 10 (r + 1)
    have hX1 : 10 ≤ 10 ^ (r + 1) := by rw [hp1]; omega
    have hrb : r ≤ 11 := by
      by_contra hcon
      push_neg at hcon
      have h12 : (10:Nat) ^ 12 ≤ 10 ^ r := Nat.pow_le_pow_right (by omega) (by omega)
      have he12 : (10:Nat) ^ 12 = 1000000000000 := by norm_num
      have hm_le : n / 10 ≤ 100000000000 := by
        have hev : (10:Nat) ^ 12 = 1000000000000 := he12
        omega
      omega
    have hexp : n = M * 10 ^ (r + 2)
        + (y * 10 ^ (r + 1) + (10 ^ (r + 1) - 10) + n % 10) := by
      have hn1 : n = 10 * (n / 10) + n % 10 := by omega
      conv_lhs => rw [hn1, hmdec]
      rw [hp2, hp1]
      have ha : (10 * M + y) * 10 ^ r = 10 * (M * 10 ^ r) + y * 10 ^ r := by ring
      have hb : M * (10 ^ r * 10 * 10) = 100 * (M * 10 ^ r) := by ring
      have hcc : y * (10 ^ r * 10) = 10 * (y * 10 ^ r) := by ring
      rw [ha, hb, hcc]
      generalize M * 10 ^ r = A at *
      generalize y * 10 ^ r = B at *
      generalize 10 ^ r = X at *
      omega
    have hexp2 : n + d = M * 10 ^ (r + 2)
        + ((y + 1) * 10 ^ (r + 1) + (n % 10 + d - 10)) := by
      rw [hexp]
      have ha : (y + 1) * 10 ^ (r + 1) = y * 10 ^ (r + 1) + 10 ^ (r + 1) := by ring
      rw [ha]
      generalize y * 10 ^ (r + 1) = B at *
      generalize 10 ^ (r + 1) = X at *
      omega
    have hC1lt : y * 10 ^ (r + 1) + (10 ^ (r + 1) - 10) + n % 10 < 10 ^ (r + 2) := by
      have hyb : y * 10 ^ (r + 1) ≤ 8 * 10 ^ (r + 1) :=
        Nat.mul_le_mul_right _ hy8
      rw [hp2]
      generalize y * 10 ^ (r + 1) = B at *
      generalize 10 ^ (r + 1) = X at *
      omega
    have hC2lt : (y + 1) * 10 ^ (r + 1) + (n % 10 + d - 10) < 10 ^ (r + 2) := by
      have hyb : (y + 1) * 10 ^ (r + 1) ≤ 9 * 10 ^ (r + 1) :=
        Nat.mul_le_mul_right _ (by omega)
      rw [hp2]
      generalize (y + 1) * 10 ^ (r + 1) = B at *
      generalize 10 ^ (r + 1) = X at *
      omega
    rcases Nat.eq_zero_or_pos M with hM0 | hMpos
    · rcases Nat.eq_zero_or_pos y with hy0 | hypos
      · -- the whole of n is nines followed by the last digit: length change
        subst hM0
        subst hy0
        rcases Nat.eq_zero_or_pos r with hr0 | hrpos
        · -- single digit with carry
          subst hr0
          have hnc : n = n % 10 := by
            rw [hexp]
            norm_num
          refine ⟨[], crossU 0 (n % 10), crossV 0 (n % 10 + d - 10), ?_, ?_, ?_, ?_, ?_⟩
          · have hrn : Nat.repr n = String.mk [Nat.digitChar (n % 10)] := by
              conv_lhs => rw [hnc]
              exact repr_digit (n % 10) (by omega)
            rw [hrn]
            rfl
          · have hnd : n + d = 1 * 10 ^ 1 + (n % 10 + d - 10) := by
              rw [hten]
              omega
            have hrv : Nat.repr (n + d)
                = Nat.repr 1 ++ String.mk (padded 1 (n % 10 + d - 10)) := by
              conv_lhs => rw [hnd]
              exact repr_chunk 1 1 (n % 10 + d - 10) (by omega) (by rw [hten]; omega)
            rw [hrv, data_append, repr_digit 1 (by omega)]
            have hps := padded_small 0 (n % 10 + d - 10) (by omega)
            norm_num at hps
            rw [hps]
            rfl
          · exact crossU_bound 0 (n % 10) (by omega)
          · exact crossV_bound 0 (n % 10 + d - 10) (by omega)
          · exact Or.inr (crossU_lowFacts d (n % 10) 0 hd1 hd3 hc9 hcd10 (by omega))
        · -- several nines roll over
          obtain ⟨r2, rfl⟩ : ∃ r2, r = r2 + 1 := ⟨r - 1, by omega⟩
          have hq : (10:Nat) ^ (r2 + 1) = 10 ^ r2 * 10 := pow_succ 10 r2
          have hXr : 1 ≤ 10 ^ r2 := Nat.one_le_pow _ _ (by omega)
          have hn9a : n = 9 * 10 ^ (r2 + 1) + (10 ^ (r2 + 1) - 10 + n % 10) := by
            rw [hexp]
            have hq2 : (10:Nat) ^ (r2 + 1 + 2) = 10 ^ (r2 + 1) * 100 := by
              rw [pow_succ, pow_succ]
              ring
            rw [hq2]
            generalize 10 ^ (r2 + 1) = X at *
            omega
          have hlow : 10 ^ (r2 + 1) - 10 + n % 10 < 10 ^ (r2 + 1) := by
            generalize 10 ^ (r2 + 1) = X at *
            omega
          have r1eq : Nat.repr n = Nat.repr 9
              ++ String.mk (padded (r2 + 1) (10 ^ (r2 + 1) - 10 + n % 10)) := by
            conv_lhs => rw [hn9a]
            exact repr_chunk (r2 + 1) 9 _ (by omega) hlow
          have hpadu : padded (r2 + 1) (10 ^ (r2 + 1) - 10 + n % 10)
              = List.replicate r2 '9' ++ [Nat.digitChar (n % 10)] := by
            have he : 10 ^ (r2 + 1) - 10 + n % 10 = (10 ^ r2 - 1) * 10 + n % 10 := by
              rw [hq]
              generalize 10 ^ r2 = X at *
              omega
            rw [he]
            exact padded_tail_nines r2 (n % 10) (by omega)
          have hv : n + d = 1 * 10 ^ (r2 + 1 + 1) + (n % 10 + d - 10) := by
            rw [hn9a]
            have hq3 : (10:Nat) ^ (r2 + 1 + 1) = 10 ^ (r2 + 1) * 10 := pow_succ 10 (r2 + 1)
            rw [hq3]
            generalize 10 ^ (r2 + 1) = X at *
            omega
          have r2eq : Nat.repr (n + d) = Nat.repr 1
              ++ String.mk (padded (r2 + 1 + 1) (n % 10 + d - 10)) := by
            conv_lhs => rw [hv]
            refine repr_chunk (r2 + 1 + 1) 1 (n % 10 + d - 10) (by omega) ?_
            have : (10:Nat) ≤ 10 ^ (r2 + 1 + 1) := by
              calc (10:Nat) = 10 ^ 1 := by norm_num
              _ ≤ 10 ^ (r2 + 1 + 1) := Nat.pow_le_pow_right (by omega) (by omega)
            omega
          have hpadv := padded_small (r2 + 1) (n % 10 + d - 10) (by omega)
          refine ⟨[], crossU (r2 + 1) (n % 10), crossV (r2 + 1) (n % 10 + d - 10),
            ?_, ?_, ?_, ?_, ?_⟩
          · rw [r1eq, data_append, repr_digit 9 (by omega), hpadu]
            show List.replicate 1 '9' ++ (List.replicate r2 '9' ++ _) = _
            rw [← List.append_assoc, ← List.replicate_add]
            have h1r : 1 + r2 = r2 + 1 := by omega
            rw [h1r]
            rfl
          · rw [r2eq, data_append, repr_digit 1 (by omega), hpadv]
            rfl
          · exact crossU_bound (r2 + 1) (n % 10) (by omega)
          · exact crossV_bound (r2 + 1) (n % 10 + d - 10) (by omega)
          · exact Or.inr (crossU_lowFacts d (n % 10) (r2 + 1) hd1 hd3 hc9 hcd10 (by omega))
      · -- leading digit y with nines after it, no higher digits
        subst hM0
        have hexpy : n = y * 10 ^ (r + 1) + (10 ^ (r + 1) - 10 + n % 10) := by
          rw [hexp]
          generalize 10 ^ (r + 2) = X2 at *
          generalize hB : y * 10 ^ (r + 1) = B at *
          generalize 10 ^ (r + 1) = X at *
          omega
        have hlow : 10 ^ (r + 1) - 10 + n % 10 < 10 ^ (r + 1) := by
          generalize 10 ^ (r + 1) = X at *
          omega
        have r1eq : Nat.repr n = Nat.repr y
            ++ String.mk (padded (r + 1) (10 ^ (r + 1) - 10 + n % 10)) := by
          conv_lhs => rw [hexpy]
          exact repr_chunk (r + 1) y _ hypos hlow
        have hpadu : padded (r + 1) (10 ^ (r + 1) - 10 + n % 10)
            = List.replicate r '9' ++ [Nat.digitChar (n % 10)] := by
          have he : 10 ^ (r + 1) - 10 + n % 10 = (10 ^ r - 1) * 10 + n % 10 := by
            rw [hp1]
            generalize 10 ^ r = X at *
            omega
          rw [he]
          exact padded_tail_nines r (n % 10) (by omega)
        have hv : n + d = (y + 1) * 10 ^ (r + 1) + (n % 10 + d - 10) := by
          rw [hexp2]
          norm_num
        have r2eq : Nat.repr (n + d) = Nat.repr (y + 1)
            ++ String.mk (padded (r + 1) (n % 10 + d - 10)) := by
          conv_lhs => rw [hv]
          refine repr_chunk (r + 1) (y + 1) (n % 10 + d - 10) (by omega) (by omega)
        have hpadv := padded_small r (n % 10 + d - 10) (by omega)
        refine ⟨[], famU y r (n % 10), famV (y + 1) r (n % 10 + d - 10),
          ?_, ?_, ?_, ?_, ?_⟩
        · rw [r1eq, data_append, repr_digit y (by omega), hpadu]
          rfl
        · rw [r2eq, data_append, repr_digit (y + 1) (by omega), hpadv]
          rfl
        · exact famU_bound y r (n % 10) (by omega) (by omega)
        · exact famV_bound (y + 1) r (n % 10 + d - 10) (by omega) (by omega)
        · refine Or.inl ⟨?_, famU_deltaFacts d (n % 10) y r hd1 hd3 hc9 hcd10 hy8 hrb⟩
          simp [famU, famV]
    · -- higher digits exist and are untouched
      have r1eq : Nat.repr n = Nat.repr M
          ++ String.mk (padded (r + 2) (y * 10 ^ (r + 1) + (10 ^ (r + 1) - 10) + n % 10)) := by
        conv_lhs => rw [hexp]
        exact repr_chunk (r + 2) M _ hMpos hC1lt
      have r2eq : Nat.repr (n + d) = Nat.repr M
          ++ String.mk (padded (r + 2) ((y + 1) * 10 ^ (r + 1) + (n % 10 + d - 10))) := by
        conv_lhs => rw [hexp2]
        exact repr_chunk (r + 2) M _ hMpos hC2lt
      have hpadu := padded_famU r y (n % 10) (by omega) (by omega)
      have hpadv := padded_famV r (y + 1) (n % 10 + d - 10) (by omega) (by omega)
      refine ⟨(Nat.repr M).data, famU y r (n % 10), famV (y + 1) r (n % 10 + d - 10),
        ?_, ?_, ?_, ?_, ?_⟩
      · rw [r1eq, data_append, hpadu]
        rfl
      · rw [r2eq, data_append, hpadv]
        rfl
      · exact famU_bound y r (n % 10) (by omega) (by omega)
      · exact famV_bound (y + 1) r (n % 10 + d - 10) (by omega) (by omega)
      · refine Or.inl ⟨?_, famU_deltaFacts d (n % 10) y r hd1 hd3 hc9 hcd10 hy8 hrb⟩
        simp [famU, famV]

/-- Two windows at distance 1, 2 or 3 below 10^12 never hash to the same
six-digit code, whatever the shared prefix state. -/
theorem no_repr_collision (d n : Nat) (hd1 : 1 ≤ d) (hd3 : d ≤ 3)
    (hn : n + d ≤ 10 ^ 12) (H : Nat) (hH : H < 4294967296) :
    hashL H (Nat.repr n).data % 1000000
      ≠ hashL H (Nat.repr (n + d)).data % 1000000 := by
  obtain ⟨P, u, v, e1, e2, hu, hv, hcase⟩ := repr_decomp d n hd1 hd3 hn
  rw [e1, e2, hashL_append, hashL_append]
  have hHP : hashL H P < 4294967296 := hashL_lt P H hH
  rcases hcase with ⟨hlen, hchk⟩ | hchk
  · exact no_collision_of_deltaFacts u v hlen hu hv hchk (hashL H P) hHP
  · exact no_collision_of_lowFacts u v hchk (hashL H P)

theorem digitChar_inj_lt : ∀ a, a < 10 → ∀ b, b < 10 →
    digitChar a = digitChar b → a = b := by decide

theorem toSixDigitCode_inj (a b : Nat) (ha : a < 1000000) (hb : b < 1000000)
    (h : toSixDigitCode a = toSixDigitCode b) : a = b := by
  have hd := congrArg String.data h
  simp only [toSixDigitCode, List.cons.injEq, and_true] at hd
  obtain ⟨h1, h2, h3, h4, h5, h6⟩ := hd
  have e1 := digitChar_inj_lt _ (Nat.mod_lt _ (by omega)) _ (Nat.mod_lt _ (by omega)) h1
  have e2 := digitChar_inj_lt _ (Nat.mod_lt _ (by omega)) _ (Nat.mod_lt _ (by omega)) h2
  have e3 := digitChar_inj_lt _ (Nat.mod_lt _ (by omega)) _ (Nat.mod_lt _ (by omega)) h3
  have e4 := digitChar_inj_lt _ (Nat.mod_lt _ (by omega)) _ (Nat.mod_lt _ (by omega)) h4
  have e5 := digitChar_inj_lt _ (Nat.mod_lt _ (by omega)) _ (Nat.mod_lt _ (by omega)) h5
  have e6 := digitChar_inj_lt _ (Nat.mod_lt _ (by omega)) _ (Nat.mod_lt _ (by omega)) h6
  omega

theorem fdiv_ofNat (a b : Nat) : Int.fdiv (Int.ofNat a) (Int.ofNat b) = Int.ofNat (a / b) := by
  cases a with
  | zero => simp [Int.fdiv]
  | succ m => rfl

theorem toString_ofNat (k : Nat) : toString (Int.ofNat k) = Nat.repr k := rfl

/-- The generated code at a nonnegative timestamp, expressed through the
natural-number window index. -/
theorem gen_ofNat (S : String) (tn : Nat) :
    generateTwoFactorCode S (Int.ofNat tn)
      = toSixDigitCode (hashString (S ++ ":" ++ Nat.repr (tn / 30000)) % 1000000) := by
  simp only [generateTwoFactorCode]
  have h30 : (30000 : Int) = Int.ofNat 30000 := rfl
  rw [h30, fdiv_ofNat, toString_ofNat]

theorem hashString_split (S R : String) :
    hashString (S ++ ":" ++ R) = hashL (hashL 5381 (S ++ ":").data) R.data := by
  show hashL 5381 (S ++ ":" ++ R).data = _
  rw [data_append (S ++ ":") R, hashL_append]

/-- Codes of two windows at distance 1 to 3 below 10^12 differ for every
secret. -/
theorem code_of_window_ne (S : String) (n d : Nat) (hd1 : 1 ≤ d) (hd3 : d ≤ 3)
    (hn : n + d ≤ 10 ^ 12) :
    toSixDigitCode (hashString (S ++ ":" ++ Nat.repr n) % 1000000)
      ≠ toSixDigitCode (hashString (S ++ ":" ++ Nat.repr (n + d)) % 1000000) := by
  intro h
  have hinj := toSixDigitCode_inj _ _ (Nat.mod_lt _ (by omega)) (Nat.mod_lt _ (by omega)) h
  rw [hashString_split, hashString_split] at hinj
  exact no_repr_collision d n hd1 hd3 hn _
    (hashL_lt _ 5381 (by norm_num)) hinj

/-- C4.  For timestamps in the program's domain — exact JavaScript
integers up to 2^53, at least a minute past the epoch — the code
generated at the verification time or one window (30000 ms) away is
accepted, the code generated two windows away in either direction is
rejected, and any submission that is not exactly six decimal digits
after whitespace stripping is rejected. -/
theorem codeGenerator_window_tolerance (secret code : String) (t : Int)
    (hlo : 60000 ≤ t) (hhi : t ≤ 2 ^ 53)
    (hbad : isSixDigitCode (stripSpaces code) = false) :
    verifyTwoFactorCode secret (generateTwoFactorCode secret t) t = true ∧
    verifyTwoFactorCode secret (generateTwoFactorCode secret (t + 30000)) t = true ∧
    verifyTwoFactorCode secret (generateTwoFactorCode secret (t - 30000)) t = true ∧
    verifyTwoFactorCode secret (generateTwoFactorCode secret (t + 60000)) t = false ∧
    verifyTwoFactorCode secret (generateTwoFactorCode secret (t - 60000)) t = false ∧
    verifyTwoFactorCode secret code t = false := by
  have e0 : t + 0 * 30000 = t := by ring
  have e1 : t + -1 * 30000 = t - 30000 := by ring
  have e2 : t + 1 * 30000 = t + 30000 := by ring
  obtain ⟨tn, ht⟩ := Int.eq_ofNat_of_zero_le (show (0:Int) ≤ t by omega)
  have h253 : ((2:Int) ^ 53) = 9007199254740992 := by norm_num
  rw [h253] at hhi
  have htlo : 60000 ≤ tn := by omega
  have hthi : tn ≤ 9007199254740992 := by omega
  have hwlo : 2 ≤ tn / 30000 := by omega
  have hwhi : tn / 30000 + 2 ≤ 10 ^ 12 := by omega
  have hgB : generateTwoFactorCode secret t
      = toSixDigitCode (hashString (secret ++ ":" ++ Nat.repr (tn / 30000)) % 1000000) := by
    have e : t = Int.ofNat tn := by rw [ht]; rfl
    rw [e, gen_ofNat]
  have hgP1 : generateTwoFactorCode secret (t + 30000)
      = toSixDigitCode (hashString (secret ++ ":"
          ++ Nat.repr (tn / 30000 + 1)) % 1000000) := by
    have e : t + 30000 = Int.ofNat (tn + 30000) := by rw [ht]; rfl
    have hq : (tn + 30000) / 30000 = tn / 30000 + 1 := by omega
    rw [e, gen_ofNat, hq]
  have hgM1 : generateTwoFactorCode secret (t - 30000)
      = toSixDigitCode (hashString (secret ++ ":"
          ++ Nat.repr (tn / 30000 - 1)) % 1000000) := by
    have e : t - 30000 = Int.ofNat (tn - 30000) := by
      rw [ht]
      have h1 : (tn : Int) - (30000:Int) = Int.subNatNat tn 30000 := rfl
      rw [h1, Int.subNatNat_of_le (by omega)]
      rfl
    have hq : (tn - 30000) / 30000 = tn / 30000 - 1 := by omega
    rw [e, gen_ofNat, hq]
  have hgP2 : generateTwoFactorCode secret (t + 60000)
      = toSixDigitCode (hashString (secret ++ ":"
          ++ Nat.repr (tn / 30000 + 2)) % 1000000) := by
    have e : t + 60000 = Int.ofNat (tn + 60000) := by rw [ht]; rfl
    have hq : (tn + 60000) / 30000 = tn / 30000 + 2 := by omega
    rw [e, gen_ofNat, hq]
  have hgM2 : generateTwoFactorCode secret (t - 60000)
      = toSixDigitCode (hashString (secret ++ ":"
          ++ Nat.repr (tn / 30000 - 2)) % 1000000) := by
    have e : t - 60000 = Int.ofNat (tn - 60000) := by
      rw [ht]
      have h1 : (tn : Int) - (60000:Int) = Int.subNatNat tn 60000 := rfl
      rw [h1, Int.subNatNat_of_le (by omega)]
      rfl
    have hq : (tn - 60000) / 30000 = tn / 30000 - 2 := by omega
    rw [e, gen_ofNat, hq]
  refine ⟨?_, ?_, ?_, ?_, ?_, ?_⟩
  · simp only [verifyTwoFactorCode, stripSpaces_generate, isSixDigitCode_generate,
      List.any_cons, List.any_nil, e0, e1, e2]
    simp
  · simp only [verifyTwoFactorCode, stripSpaces_generate, isSixDigitCode_generate,
      List.any_cons, List.any_nil, e0, e1, e2]
    simp
  · simp only [verifyTwoFactorCode, stripSpaces_generate, isSixDigitCode_generate,
      List.any_cons, List.any_nil, e0, e1, e2]
    simp
  · have b0 : (generateTwoFactorCode secret t
        == generateTwoFactorCode secret (t + 60000)) = false := by
      rw [hgB, hgP2]
      refine beq_eq_false_iff_ne.mpr ?_
      have hne := code_of_window_ne secret (tn / 30000) 2 (by omega) (by omega) (by omega)
      exact hne
    have b1 : (generateTwoFactorCode secret (t - 30000)
        == generateTwoFactorCode secret (t + 60000)) = false := by
      rw [hgM1, hgP2]
      refine beq_eq_false_iff_ne.mpr ?_
      have hne := code_of_window_ne secret (tn / 30000 - 1) 3 (by omega) (by omega) (by omega)
      have hq : tn / 30000 - 1 + 3 = tn / 30000 + 2 := by omega
      rw [hq] at hne
      exact hne
    have b2 : (generateTwoFactorCode secret (t + 30000)
        == generateTwoFactorCode secret (t + 60000)) = false := by
      rw [hgP1, hgP2]
      refine beq_eq_false_iff_ne.mpr ?_
      have hne := code_of_window_ne secret (tn / 30000 + 1) 1 (by omega) (by omega) (by omega)
      have hq : tn / 30000 + 1 + 1 = tn / 30000 + 2 := by omega
      rw [hq] at hne
      exact hne
    simp only [verifyTwoFactorCode, stripSpaces_generate, isSixDigitCode_generate,
      List.any_cons, List.any_nil, e0, e1, e2, b0, b1, b2]
    simp
  · have b0 : (generateTwoFactorCode secret t
        == generateTwoFactorCode secret (t - 60000)) = false := by
      rw [hgB, hgM2]
      refine (beq_eq_false_iff_ne.mpr (Ne.symm ?_))
      have hne := code_of_window_ne secret (tn / 30000 - 2) 2 (by omega) (by omega) (by omega)
      have hq : tn / 30000 - 2 + 2 = tn / 30000 := by omega
      rw [hq] at hne
      exact hne
    have b1 : (generateTwoFactorCode secret (t - 30000)
        == generateTwoFactorCode secret (t - 60000)) = false := by
      rw [hgM1, hgM2]
      refine (beq_eq_false_iff_ne.mpr (Ne.symm ?_))
      have hne := code_of_window_ne secret (tn / 30000 - 2) 1 (by omega) (by omega) (by omega)
      have hq : tn / 30000 - 2 + 1 = tn / 30000 - 1 := by omega
      rw [hq] at hne
      exact hne
    have b2 : (generateTwoFactorCode secret (t + 30000)
        == generateTwoFactorCode secret (t - 60000)) = false := by
      rw [hgP1, hgM2]
      refine (beq_eq_false_iff_ne.mpr (Ne.symm ?_))
      have hne := code_of_window_ne secret (tn / 30000 - 2) 3 (by omega) (by omega) (by omega)
      have hq : tn / 30000 - 2 + 3 = tn / 30000 + 1 := by omega
      rw [hq] at hne
      exact hne
    simp only [verifyTwoFactorCode, stripSpaces_generate, isSixDigitCode_generate,
      List.any_cons, List.any_nil, e0, e1, e2, b0, b1, b2]
    simp
  · simp only [verifyTwoFactorCode, hbad]
    simp

/-- With secret `"B"` one minute past the epoch every clause of the
window-tolerance theorem holds at concrete inputs. -/
theorem codeGenerator_window_tolerance_witness :
    verifyTwoFactorCode "B" (generateTwoFactorCode "B" 60000) 60000 = true ∧
    verifyTwoFactorCode "B" (generateTwoFactorCode "B" (60000 + 30000)) 60000 = true ∧
    verifyTwoFactorCode "B" (generateTwoFactorCode "B" (60000 - 30000)) 60000 = true ∧
    verifyTwoFactorCode "B" (generateTwoFactorCode "B" (60000 + 60000)) 60000 = false ∧
    verifyTwoFactorCode "B" (generateTwoFactorCode "B" (60000 - 60000)) 60000 = false ∧
    verifyTwoFactorCode "B" "no" 60000 = false :=
  codeGenerator_window_tolerance "B" "no" 60000 (by norm_num) (by norm_num) (by decide)

end AuthCore
